import Mathlib

/-!
Verification of the `namedreturns` Go analyzer (`analyzer/analyzer.go`).

The analyzer walks every function declaration / function literal of a
compilation unit and reports:
  * unnamed result parameters,
  * result parameters named with the placeholder `_`,
  * named return variables missing from an explicit `return` statement,
  * named return variables shadowed by local declarations / loop bindings.
A named `error`-typed return assigned inside a deferred closure is exempted
from tracking unless the `report-error-in-defer` flag is set.

The Go AST fragment relevant to the analyzer is embedded shallowly below;
each checker of the source file is translated into a Lean function over that
embedding, following the exact traversal order of `ast.Inspect` (pre-order:
a node is processed before its children, children in field order).
-/

namespace NamedReturns

/-- Source position, abstracted as a natural number (token.Pos). -/
abbrev Pos := Nat

/-- Object identity as reported by the external type resolver: two identifier
occurrences reference the same binding iff they carry the same `ObjId`
(this models pointer equality of `types.Object` in `info.ObjectOf`). -/
abbrev ObjId := Nat

/-- An identifier occurrence (ast.Ident) with its textual name, the object
identity assigned by the type resolver, and its source position. -/
structure Ident where
  name : String
  oid  : ObjId
  pos  : Pos
deriving DecidableEq, Repr

/-- A declared type as compared by `types.Identical` against the universe
`error` type: `stdError` is the standard error type, `other s` is any other
type (including a user type merely named "error"), rendered by
`types.ExprString` as the string `s`. -/
inductive Ty where
  | stdError
  | int
  | other (s : String)
deriving DecidableEq, Repr

/-- Assignment token of an ast.AssignStmt: `define` is `:=` (token.DEFINE),
`assign` is plain `=` (token.ASSIGN). -/
inductive Tok where
  | define
  | assign
deriving DecidableEq, Repr

/-- One entry of a function's declared result list (ast.Field): zero or more
bound names and the declared type. -/
structure Param where
  names : List Ident
  ty    : Ty
deriving DecidableEq, Repr

mutual
/-- Expressions of the embedded Go AST fragment. `funcLit` is an anonymous
function literal carrying its declared result list (`none` when the literal
declares no results) and its body; `call` is a call expression; `other` is
any further expression with the given children (e.g. a binary operation). -/
inductive Expr where
  | ident   : Ident → Expr
  | lit     : String → Expr
  | funcLit : Option (List Param) → List Stmt → Expr
  | call    : Expr → List Expr → Expr
  | other   : List Expr → Expr

/-- Statements of the embedded Go AST fragment. A block is a statement list;
`varDecl` is a `var` declaration (ast.ValueSpec) with its names and values;
`rangeStmt key value tok x body` and `forStmt init cond post body` are the
two loop forms; `deferStmt fn args` is `defer fn(args)` (the DeferStmt's
CallExpr flattened into its Fun and Args). -/
inductive Stmt where
  | block     : List Stmt → Stmt
  | ret       : List Expr → Stmt
  | assign    : Tok → List Expr → List Expr → Stmt
  | varDecl   : List Ident → List Expr → Stmt
  | rangeStmt : Option Expr → Option Expr → Tok → Expr → List Stmt → Stmt
  | forStmt   : Option Stmt → Option Expr → Option Stmt → List Stmt → Stmt
  | ifStmt    : Option Stmt → Expr → List Stmt → Option Stmt → Stmt
  | deferStmt : Expr → List Expr → Stmt
  | exprStmt  : Expr → Stmt
  | empty     : Stmt
end

mutual
/-- Embeds `findVariableAssignment` restricted to one statement: does any
ast.AssignStmt in the subtree (at any depth, nested function literals
included, as `ast.Inspect` descends everywhere) have a left-hand side
identifier resolving to the object `v`? -/
def fvaStmt (v : ObjId) : Stmt → Bool
  | .block ss => fvaStmts v ss
  | .ret rs => fvaExprs v rs
  | .assign _ lhs rhs =>
      lhs.any (fun l => match l with
        | .ident i => i.oid == v
        | _ => false) || fvaExprs v lhs || fvaExprs v rhs
  | .varDecl _ vals => fvaExprs v vals
  | .rangeStmt k val _ x body =>
      fvaOptExpr v k || fvaOptExpr v val || fvaExpr v x || fvaStmts v body
  | .forStmt init cond post body =>
      fvaOptStmt v init || fvaOptExpr v cond || fvaOptStmt v post || fvaStmts v body
  | .ifStmt init cond thn els =>
      fvaOptStmt v init || fvaExpr v cond || fvaStmts v thn || fvaOptStmt v els
  | .deferStmt fn args => fvaExpr v fn || fvaExprs v args
  | .exprStmt e => fvaExpr v e
  | .empty => false

def fvaStmts (v : ObjId) : List Stmt → Bool
  | [] => false
  | s :: ss => fvaStmt v s || fvaStmts v ss

def fvaExpr (v : ObjId) : Expr → Bool
  | .ident _ => false
  | .lit _ => false
  | .funcLit _ body => fvaStmts v body
  | .call f args => fvaExpr v f || fvaExprs v args
  | .other es => fvaExprs v es

def fvaExprs (v : ObjId) : List Expr → Bool
  | [] => false
  | e :: es => fvaExpr v e || fvaExprs v es

def fvaOptStmt (v : ObjId) : Option Stmt → Bool
  | none => false
  | some s => fvaStmt v s

def fvaOptExpr (v : ObjId) : Option Expr → Bool
  | none => false
  | some e => fvaExpr v e
end

/-- Embeds `findVariableAssignment(body, info, variable)`: the closure body is
a statement list. -/
def findVariableAssignment (body : List Stmt) (v : ObjId) : Bool :=
  fvaStmts v body

mutual
/-- Embeds `findDeferWithVariableAssignment` restricted to one statement:
does any ast.DeferStmt in the subtree (at any depth — `ast.Inspect` does not
stop at block or closure boundaries) call a function literal whose body
contains an assignment to object `v`? -/
def fdStmt (v : ObjId) : Stmt → Bool
  | .block ss => fdStmts v ss
  | .ret rs => fdExprs v rs
  | .assign _ lhs rhs => fdExprs v lhs || fdExprs v rhs
  | .varDecl _ vals => fdExprs v vals
  | .rangeStmt k val _ x body =>
      fdOptExpr v k || fdOptExpr v val || fdExpr v x || fdStmts v body
  | .forStmt init cond post body =>
      fdOptStmt v init || fdOptExpr v cond || fdOptStmt v post || fdStmts v body
  | .ifStmt init cond thn els =>
      fdOptStmt v init || fdExpr v cond || fdStmts v thn || fdOptStmt v els
  | .deferStmt fn args =>
      (match fn with
        | .funcLit _ body => findVariableAssignment body v
        | _ => false) || fdExpr v fn || fdExprs v args
  | .exprStmt e => fdExpr v e
  | .empty => false

def fdStmts (v : ObjId) : List Stmt → Bool
  | [] => false
  | s :: ss => fdStmt v s || fdStmts v ss

def fdExpr (v : ObjId) : Expr → Bool
  | .ident _ => false
  | .lit _ => false
  | .funcLit _ body => fdStmts v body
  | .call f args => fdExpr v f || fdExprs v args
  | .other es => fdExprs v es

def fdExprs (v : ObjId) : List Expr → Bool
  | [] => false
  | e :: es => fdExpr v e || fdExprs v es

def fdOptStmt (v : ObjId) : Option Stmt → Bool
  | none => false
  | some s => fdStmt v s

def fdOptExpr (v : ObjId) : Option Expr → Bool
  | none => false
  | some e => fdExpr v e
end

/-- Embeds `findDeferWithVariableAssignment(body, info, variable)`. -/
def findDeferWithVariableAssignment (body : List Stmt) (v : ObjId) : Bool :=
  fdStmts v body

/-- Diagnostic message payloads, one constructor per `pass.Reportf` template of
the analyzer. `unnamedReturn` carries the rendered type of the unnamed result;
`underscoreReturn` carries the rendered type of the `_`-named result;
`notUsedInReturn` names a tracked variable missing from a return statement;
the three shadowing messages name the shadowed variable and correspond to the
"local variable declaration", "range loop variable" and "for loop variable"
message templates respectively. -/
inductive Msg where
  | unnamedReturn    (ty : Ty)
  | underscoreReturn (ty : Ty)
  | notUsedInReturn  (name : String)
  | shadowedByLocal  (name : String)
  | shadowedByRange  (name : String)
  | shadowedByFor    (name : String)
deriving DecidableEq, Repr

/-- A reported diagnostic: the position passed to `pass.Reportf` and the
message. -/
structure Diag where
  pos : Pos
  msg : Msg
deriving DecidableEq, Repr

/-- Does the list of result expressions of a return statement use the name
`nm` as a plain identifier? This mirrors the `usedNames` map construction of
`checkNamedReturnUsage`: only expressions that are syntactically an
ast.Ident count. -/
def usesName (results : List Expr) (nm : String) : Bool :=
  results.any fun r => match r with
    | .ident i => i.name == nm
    | _ => false

/-- Diagnostics emitted by `checkNamedReturnUsage` at one ReturnStmt node: a
bare return yields nothing; otherwise one `notUsedInReturn` per tracked name
not used by the statement, at the enclosing function's position, in tracked
order. -/
def retDiags (funcPos : Pos) (names : List String) (results : List Expr) : List Diag :=
  if results.isEmpty then []
  else (names.filter fun nm => !usesName results nm).map
    fun nm => ⟨funcPos, .notUsedInReturn nm⟩

mutual
/-- Embeds the `ast.Inspect` traversal of `checkNamedReturnUsage` on one
statement: pre-order, emitting `retDiags` at every ReturnStmt and descending
into all children — including the bodies of nested function literals, since
the callback always returns true. -/
def usageStmt (funcPos : Pos) (names : List String) : Stmt → List Diag
  | .block ss => usageStmts funcPos names ss
  | .ret rs => retDiags funcPos names rs ++ usageExprs funcPos names rs
  | .assign _ lhs rhs => usageExprs funcPos names lhs ++ usageExprs funcPos names rhs
  | .varDecl _ vals => usageExprs funcPos names vals
  | .rangeStmt k v _ x body =>
      usageOptExpr funcPos names k ++ usageOptExpr funcPos names v ++
      usageExpr funcPos names x ++ usageStmts funcPos names body
  | .forStmt init cond post body =>
      usageOptStmt funcPos names init ++ usageOptExpr funcPos names cond ++
      usageOptStmt funcPos names post ++ usageStmts funcPos names body
  | .ifStmt init cond thn els =>
      usageOptStmt funcPos names init ++ usageExpr funcPos names cond ++
      usageStmts funcPos names thn ++ usageOptStmt funcPos names els
  | .deferStmt fn args => usageExpr funcPos names fn ++ usageExprs funcPos names args
  | .exprStmt e => usageExpr funcPos names e
  | .empty => []

def usageStmts (funcPos : Pos) (names : List String) : List Stmt → List Diag
  | [] => []
  | s :: ss => usageStmt funcPos names s ++ usageStmts funcPos names ss

def usageExpr (funcPos : Pos) (names : List String) : Expr → List Diag
  | .ident _ => []
  | .lit _ => []
  | .funcLit _ body => usageStmts funcPos names body
  | .call f args => usageExpr funcPos names f ++ usageExprs funcPos names args
  | .other es => usageExprs funcPos names es

def usageExprs (funcPos : Pos) (names : List String) : List Expr → List Diag
  | [] => []
  | e :: es => usageExpr funcPos names e ++ usageExprs funcPos names es

def usageOptStmt (funcPos : Pos) (names : List String) : Option Stmt → List Diag
  | none => []
  | some s => usageStmt funcPos names s

def usageOptExpr (funcPos : Pos) (names : List String) : Option Expr → List Diag
  | none => []
  | some e => usageExpr funcPos names e
end

/-- Embeds `checkNamedReturnUsage(pass, body, namedReturnNames, funcPos)`. -/
def checkNamedReturnUsage (funcPos : Pos) (names : List String) (body : List Stmt) :
    List Diag :=
  usageStmts funcPos names body

/-- Diagnostics of the AssignStmt case of `checkNamedReturnShadowing`: for a
`:=` statement, each left-hand identifier equal to a tracked name is reported
at the identifier's position ("local variable declaration" template). -/
def shadowLhs (names : List String) (lhs : List Expr) : List Diag :=
  lhs.flatMap fun l => match l with
    | .ident i => (names.filter fun nm => i.name == nm).map
        fun nm => ⟨i.pos, .shadowedByLocal nm⟩
    | _ => []

/-- Diagnostics of the ForStmt case of `checkNamedReturnShadowing`: same
matching as `shadowLhs` but with the "for loop variable" template. -/
def shadowForInit (names : List String) (lhs : List Expr) : List Diag :=
  lhs.flatMap fun l => match l with
    | .ident i => (names.filter fun nm => i.name == nm).map
        fun nm => ⟨i.pos, .shadowedByFor nm⟩
    | _ => []

/-- Diagnostics of the ValueSpec case of `checkNamedReturnShadowing`: each
declared name equal to a tracked name is reported at the name's position
("local variable declaration" template). -/
def shadowDeclNames (names : List String) (ids : List Ident) : List Diag :=
  ids.flatMap fun i => (names.filter fun nm => i.name == nm).map
    fun nm => ⟨i.pos, .shadowedByLocal nm⟩

/-- Diagnostics of the RangeStmt case of `checkNamedReturnShadowing` for one
of the Key/Value slots: an identifier equal to a tracked name is reported
regardless of the range statement's token ("range loop variable" template). -/
def shadowRangeVar (names : List String) : Option Expr → List Diag
  | some (.ident i) => (names.filter fun nm => i.name == nm).map
      fun nm => ⟨i.pos, .shadowedByRange nm⟩
  | _ => []

mutual
/-- Embeds the `ast.Inspect` traversal of `checkNamedReturnShadowing` on one
statement: pre-order; the AssignStmt, ValueSpec, RangeStmt and ForStmt cases
emit their diagnostics when the node is visited, then the traversal descends
into all children (so a ForStmt's `:=` initializer is reported twice: once by
the ForStmt case and again when the initializer itself is visited as an
AssignStmt). Nested function literals are descended into as well. -/
def shadowStmt (names : List String) : Stmt → List Diag
  | .block ss => shadowStmts names ss
  | .ret rs => shadowExprs names rs
  | .assign tok lhs rhs =>
      (if tok = .define then shadowLhs names lhs else []) ++
      shadowExprs names lhs ++ shadowExprs names rhs
  | .varDecl ids vals => shadowDeclNames names ids ++ shadowExprs names vals
  | .rangeStmt k v _ x body =>
      shadowRangeVar names k ++ shadowRangeVar names v ++
      shadowOptExpr names k ++ shadowOptExpr names v ++
      shadowExpr names x ++ shadowStmts names body
  | .forStmt init cond post body =>
      (match init with
        | some (.assign tok lhs _) =>
            if tok = .define then shadowForInit names lhs else []
        | _ => []) ++
      shadowOptStmt names init ++ shadowOptExpr names cond ++
      shadowOptStmt names post ++ shadowStmts names body
  | .ifStmt init cond thn els =>
      shadowOptStmt names init ++ shadowExpr names cond ++
      shadowStmts names thn ++ shadowOptStmt names els
  | .deferStmt fn args => shadowExpr names fn ++ shadowExprs names args
  | .exprStmt e => shadowExpr names e
  | .empty => []

def shadowStmts (names : List String) : List Stmt → List Diag
  | [] => []
  | s :: ss => shadowStmt names s ++ shadowStmts names ss

def shadowExpr (names : List String) : Expr → List Diag
  | .ident _ => []
  | .lit _ => []
  | .funcLit _ body => shadowStmts names body
  | .call f args => shadowExpr names f ++ shadowExprs names args
  | .other es => shadowExprs names es

def shadowExprs (names : List String) : List Expr → List Diag
  | [] => []
  | e :: es => shadowExpr names e ++ shadowExprs names es

def shadowOptStmt (names : List String) : Option Stmt → List Diag
  | none => []
  | some s => shadowStmt names s

def shadowOptExpr (names : List String) : Option Expr → List Diag
  | none => []
  | some e => shadowExpr names e
end

/-- Embeds `checkNamedReturnShadowing(pass, body, namedReturnNames)`. -/
def checkNamedReturnShadowing (names : List String) (body : List Stmt) : List Diag :=
  shadowStmts names body

/-- Embeds the defer-exemption test of `run` (lines 91-93): the flag is off,
the declared type is identical to the standard error type, and some deferred
closure in the body assigns the variable's binding. -/
def exemptErrName (flag : Bool) (body : List Stmt) (ty : Ty) (n : Ident) : Bool :=
  !flag && (ty == Ty.stdError) && findDeferWithVariableAssignment body n.oid

/-- Embeds the inner loop of `run` over the names of one result parameter
(`for _, n := range p.Names`): emits `underscoreReturn` at the function
position for `_`, silently drops an error-typed name assigned in a deferred
closure when the flag is off, and collects every other name, in order.
Returns the emitted diagnostics paired with the collected names. -/
def classifyNames (flag : Bool) (funcPos : Pos) (body : List Stmt) (ty : Ty) :
    List Ident → List Diag × List String
  | [] => ([], [])
  | n :: ns =>
      let rest := classifyNames flag funcPos body ty ns
      if n.name = "_" then
        (⟨funcPos, .underscoreReturn ty⟩ :: rest.1, rest.2)
      else if exemptErrName flag body ty n then
        rest
      else
        (rest.1, n.name :: rest.2)

/-- Embeds the outer loop of `run` over the result list (`for _, p := range
resultsList`): an unnamed parameter yields `unnamedReturn` at the function
position, a named one is processed by `classifyNames`. Returns the
diagnostics in emission order paired with the collected named return names
(`namedReturnNames`). -/
def classifyParams (flag : Bool) (funcPos : Pos) (body : List Stmt) :
    List Param → List Diag × List String
  | [] => ([], [])
  | p :: ps =>
      let rest := classifyParams flag funcPos body ps
      if p.names.isEmpty then
        (⟨funcPos, .unnamedReturn p.ty⟩ :: rest.1, rest.2)
      else
        let here := classifyNames flag funcPos body p.ty p.names
        (here.1 ++ rest.1, here.2 ++ rest.2)

/-- A function unit: one ast.FuncDecl or ast.FuncLit as seen by the
`inspector.Preorder` callback of `run`. `results` is `none` when the
declared result list is absent, `body` is `none` for a body-less (external)
declaration. -/
structure FuncUnit where
  pos     : Pos
  results : Option (List Param)
  body    : Option (List Stmt)

/-- Embeds the body of the `inspector.Preorder` callback in `run` for one
function unit: skip when the body or the result list is absent; otherwise
classify the result parameters, and if any named return variable was
collected, run the usage checker and then the shadowing checker. The
returned list is in emission order. -/
def runFunc (flag : Bool) (f : FuncUnit) : List Diag :=
  match f.body with
  | none => []
  | some body =>
    match f.results with
    | none => []
    | some ps =>
      let c := classifyParams flag f.pos body ps
      if c.2.isEmpty then c.1
      else c.1 ++ checkNamedReturnUsage f.pos c.2 body ++
        checkNamedReturnShadowing c.2 body

mutual
/-- Specification-side enumeration of the result-expression lists of every
return statement in a subtree, in the pre-order visit order of `ast.Inspect`,
descending into inner blocks, branches, loops and nested function literals
alike. -/
def allReturnsStmt : Stmt → List (List Expr)
  | .block ss => allReturnsStmts ss
  | .ret rs => rs :: allReturnsExprs rs
  | .assign _ lhs rhs => allReturnsExprs lhs ++ allReturnsExprs rhs
  | .varDecl _ vals => allReturnsExprs vals
  | .rangeStmt k v _ x body =>
      allReturnsOptExpr k ++ allReturnsOptExpr v ++ allReturnsExpr x ++ allReturnsStmts body
  | .forStmt init cond post body =>
      allReturnsOptStmt init ++ allReturnsOptExpr cond ++
      allReturnsOptStmt post ++ allReturnsStmts body
  | .ifStmt init cond thn els =>
      allReturnsOptStmt init ++ allReturnsExpr cond ++
      allReturnsStmts thn ++ allReturnsOptStmt els
  | .deferStmt fn args => allReturnsExpr fn ++ allReturnsExprs args
  | .exprStmt e => allReturnsExpr e
  | .empty => []

def allReturnsStmts : List Stmt → List (List Expr)
  | [] => []
  | s :: ss => allReturnsStmt s ++ allReturnsStmts ss

def allReturnsExpr : Expr → List (List Expr)
  | .ident _ => []
  | .lit _ => []
  | .funcLit _ body => allReturnsStmts body
  | .call f args => allReturnsExpr f ++ allReturnsExprs args
  | .other es => allReturnsExprs es

def allReturnsExprs : List Expr → List (List Expr)
  | [] => []
  | e :: es => allReturnsExpr e ++ allReturnsExprs es

def allReturnsOptStmt : Option Stmt → List (List Expr)
  | none => []
  | some s => allReturnsStmt s

def allReturnsOptExpr : Option Expr → List (List Expr)
  | none => []
  | some e => allReturnsExpr e
end

/-- The identifiers among a list of left-hand-side expressions, as inspected
by the `for _, lh := range a.Lhs` loop of `findVariableAssignment`. -/
def lhsIdents (es : List Expr) : List Ident :=
  es.flatMap fun l => match l with
    | .ident i => [i]
    | _ => []

mutual
/-- Specification-side enumeration of the left-hand-side identifiers of every
assignment statement in a subtree, at any nesting depth (nested function
literals included), in pre-order. -/
def assignTargetsStmt : Stmt → List Ident
  | .block ss => assignTargetsStmts ss
  | .ret rs => assignTargetsExprs rs
  | .assign _ lhs rhs => lhsIdents lhs ++ assignTargetsExprs lhs ++ assignTargetsExprs rhs
  | .varDecl _ vals => assignTargetsExprs vals
  | .rangeStmt k v _ x body =>
      assignTargetsOptExpr k ++ assignTargetsOptExpr v ++
      assignTargetsExpr x ++ assignTargetsStmts body
  | .forStmt init cond post body =>
      assignTargetsOptStmt init ++ assignTargetsOptExpr cond ++
      assignTargetsOptStmt post ++ assignTargetsStmts body
  | .ifStmt init cond thn els =>
      assignTargetsOptStmt init ++ assignTargetsExpr cond ++
      assignTargetsStmts thn ++ assignTargetsOptStmt els
  | .deferStmt fn args => assignTargetsExpr fn ++ assignTargetsExprs args
  | .exprStmt e => assignTargetsExpr e
  | .empty => []

def assignTargetsStmts : List Stmt → List Ident
  | [] => []
  | s :: ss => assignTargetsStmt s ++ assignTargetsStmts ss

def assignTargetsExpr : Expr → List Ident
  | .ident _ => []
  | .lit _ => []
  | .funcLit _ body => assignTargetsStmts body
  | .call f args => assignTargetsExpr f ++ assignTargetsExprs args
  | .other es => assignTargetsExprs es

def assignTargetsExprs : List Expr → List Ident
  | [] => []
  | e :: es => assignTargetsExpr e ++ assignTargetsExprs es

def assignTargetsOptStmt : Option Stmt → List Ident
  | none => []
  | some s => assignTargetsStmt s

def assignTargetsOptExpr : Option Expr → List Ident
  | none => []
  | some e => assignTargetsExpr e
end

mutual
/-- Specification-side enumeration of the called expression of every
`defer` statement in a subtree, at any nesting depth, in pre-order. -/
def defersStmt : Stmt → List Expr
  | .block ss => defersStmts ss
  | .ret rs => defersExprs rs
  | .assign _ lhs rhs => defersExprs lhs ++ defersExprs rhs
  | .varDecl _ vals => defersExprs vals
  | .rangeStmt k v _ x body =>
      defersOptExpr k ++ defersOptExpr v ++ defersExpr x ++ defersStmts body
  | .forStmt init cond post body =>
      defersOptStmt init ++ defersOptExpr cond ++ defersOptStmt post ++ defersStmts body
  | .ifStmt init cond thn els =>
      defersOptStmt init ++ defersExpr cond ++ defersStmts thn ++ defersOptStmt els
  | .deferStmt fn args => fn :: (defersExpr fn ++ defersExprs args)
  | .exprStmt e => defersExpr e
  | .empty => []

def defersStmts : List Stmt → List Expr
  | [] => []
  | s :: ss => defersStmt s ++ defersStmts ss

def defersExpr : Expr → List Expr
  | .ident _ => []
  | .lit _ => []
  | .funcLit _ body => defersStmts body
  | .call f args => defersExpr f ++ defersExprs args
  | .other es => defersExprs es

def defersExprs : List Expr → List Expr
  | [] => []
  | e :: es => defersExpr e ++ defersExprs es

def defersOptStmt : Option Stmt → List Expr
  | none => []
  | some s => defersStmt s

def defersOptExpr : Option Expr → List Expr
  | none => []
  | some e => defersExpr e
end

/-- Does a deferred call's function expression match the pattern looked for
by `findDeferWithVariableAssignment`: a function literal whose body assigns
to the object `v`? -/
def deferFunMatches (v : ObjId) : Expr → Bool
  | .funcLit _ body => findVariableAssignment body v
  | _ => false

/-- Modelled from the spec: the Defer-Exemption Resolver's search as the spec
words it — "scan the function body for any direct child deferred-closure
scheduling statement; for each, recursively scan that closure's body for an
assignment whose left-hand target resolves to the same binding". Only the
statements that are direct children of the function body are considered as
defer sites. Kept for comparison against the implementation's
`findDeferWithVariableAssignment`, which searches at any depth. -/
def specDirectChildDeferAssign (body : List Stmt) (v : ObjId) : Bool :=
  body.any fun s => match s with
    | .deferStmt (.funcLit _ fb) _ => findVariableAssignment fb v
    | _ => false

/-- Is the message one of the three shadowing templates? -/
def Msg.isShadow : Msg → Bool
  | .shadowedByLocal _ => true
  | .shadowedByRange _ => true
  | .shadowedByFor _ => true
  | _ => false

/-- Is the message the unnamed-result template? -/
def Msg.isUnnamed : Msg → Bool
  | .unnamedReturn _ => true
  | _ => false

/-- Is the message the underscore-named-result template? -/
def Msg.isUnderscore : Msg → Bool
  | .underscoreReturn _ => true
  | _ => false

/-- Does the message name the return variable `nm`? -/
def Msg.mentions : Msg → String → Bool
  | .notUsedInReturn x, nm => x == nm
  | .shadowedByLocal x, nm => x == nm
  | .shadowedByRange x, nm => x == nm
  | .shadowedByFor x, nm => x == nm
  | _, _ => false

/-- A diagnostic produced by one of the shadow detector's match sites names
one of the tracked variables with one of the three shadowing templates. -/
def IsShadowOf (names : List String) (d : Diag) : Prop :=
  ∃ nm ∈ names, d.msg = .shadowedByLocal nm ∨ d.msg = .shadowedByRange nm ∨
    d.msg = .shadowedByFor nm

/-- Concrete probe: a function unit `func() (x int)` whose body stores a
closure containing `return 0` and then correctly executes `return x`. The
only return statement with expressions that omits `x` is the one inside the
nested closure. -/
def closureRetBody : List Stmt :=
  [.exprStmt (.funcLit none [.ret [.lit "0"]]), .ret [.ident ⟨"x", 1, 9⟩]]

/-- Function unit wrapping `closureRetBody`, declared at position 1 with the
single named int result `x` (object 1, declared at position 2). -/
def closureRetFunc : FuncUnit :=
  ⟨1, some [⟨[⟨"x", 1, 2⟩], .int⟩], some closureRetBody⟩

/-- Concrete probe: a body whose only defer statement is nested inside an
if-block (hence NOT a direct child of the function body); the deferred
closure assigns the error object 7. The explicit return does not name the
error variable. -/
def nestedDeferBody : List Stmt :=
  [.ifStmt none (.lit "c")
    [.deferStmt (.funcLit none [.assign .assign [.ident ⟨"err", 7, 5⟩] [.lit "nil"]]) []]
    none,
   .ret [.lit "1"]]

/-- Function unit wrapping `nestedDeferBody`, declared at position 1 with the
single named error result `err` (object 7, declared at position 3). -/
def nestedDeferFunc : FuncUnit :=
  ⟨1, some [⟨[⟨"err", 7, 3⟩], .stdError⟩], some nestedDeferBody⟩

/-- Concrete probe: `func() (v int, err error)` whose only reference to `err`
(object 2) is an assignment inside a directly deferred closure; the two
explicit returns name only `v`. -/
def errDeferBody : List Stmt :=
  [.deferStmt (.funcLit none [.assign .assign [.ident ⟨"err", 2, 8⟩] [.lit "e"]]) [],
   .ifStmt none (.lit "c") [.ret [.ident ⟨"v", 1, 10⟩]] none,
   .ret [.ident ⟨"v", 1, 12⟩]]

/-- Result list of `errDeferFunc`: a named int `v` and a named error `err`. -/
def errDeferParams : List Param :=
  [⟨[⟨"v", 1, 3⟩], .int⟩, ⟨[⟨"err", 2, 4⟩], .stdError⟩]

/-- Function unit wrapping `errDeferBody` at position 2. -/
def errDeferFunc : FuncUnit :=
  ⟨2, some errDeferParams, some errDeferBody⟩

/-- Concrete probe: `func() (a int, b int)` whose two explicit returns list
the two named results in the two different orders. -/
def allNamedBody : List Stmt :=
  [.ifStmt none (.lit "c") [.ret [.ident ⟨"b", 2, 5⟩, .ident ⟨"a", 1, 6⟩]] none,
   .ret [.ident ⟨"a", 1, 8⟩, .ident ⟨"b", 2, 9⟩]]

/-- Result list of `allNamedFunc`: named ints `a` and `b`. -/
def allNamedParams : List Param :=
  [⟨[⟨"a", 1, 2⟩], .int⟩, ⟨[⟨"b", 2, 3⟩], .int⟩]

/-- Function unit wrapping `allNamedBody` at position 1. -/
def allNamedFunc : FuncUnit :=
  ⟨1, some allNamedParams, some allNamedBody⟩

theorem lhsIdents_any (v : ObjId) : (es : List Expr) →
    (lhsIdents es).any (fun i => i.oid == v) =
      es.any (fun l => match l with
        | .ident i => i.oid == v
        | _ => false)
  | [] => by simp [lhsIdents]
  | e :: es => by
      have ih := lhsIdents_any v es
      cases e <;> simp_all [lhsIdents]

mutual
theorem fvaStmt_spec (v : ObjId) : (s : Stmt) →
    fvaStmt v s = (assignTargetsStmt s).any (fun i => i.oid == v)
  | .block ss => by simp [fvaStmt, assignTargetsStmt, fvaStmts_spec v ss]
  | .ret rs => by simp [fvaStmt, assignTargetsStmt, fvaExprs_spec v rs]
  | .assign tok lhs rhs => by
      simp [fvaStmt, assignTargetsStmt, fvaExprs_spec v lhs, fvaExprs_spec v rhs,
        lhsIdents_any v lhs, Bool.or_assoc]
  | .varDecl ids vals => by simp [fvaStmt, assignTargetsStmt, fvaExprs_spec v vals]
  | .rangeStmt k val tok x body => by
      simp [fvaStmt, assignTargetsStmt, fvaOptExpr_spec v k, fvaOptExpr_spec v val,
        fvaExpr_spec v x, fvaStmts_spec v body, Bool.or_assoc]
  | .forStmt init cond post body => by
      simp [fvaStmt, assignTargetsStmt, fvaOptStmt_spec v init, fvaOptExpr_spec v cond,
        fvaOptStmt_spec v post, fvaStmts_spec v body, Bool.or_assoc]
  | .ifStmt init cond thn els => by
      simp [fvaStmt, assignTargetsStmt, fvaOptStmt_spec v init, fvaExpr_spec v cond,
        fvaStmts_spec v thn, fvaOptStmt_spec v els, Bool.or_assoc]
  | .deferStmt fn args => by
      simp [fvaStmt, assignTargetsStmt, fvaExpr_spec v fn, fvaExprs_spec v args]
  | .exprStmt e => by simp [fvaStmt, assignTargetsStmt, fvaExpr_spec v e]
  | .empty => by simp [fvaStmt, assignTargetsStmt]

theorem fvaStmts_spec (v : ObjId) : (ss : List Stmt) →
    fvaStmts v ss = (assignTargetsStmts ss).any (fun i => i.oid == v)
  | [] => by simp [fvaStmts, assignTargetsStmts]
  | s :: ss => by
      simp [fvaStmts, assignTargetsStmts, fvaStmt_spec v s, fvaStmts_spec v ss]

theorem fvaExpr_spec (v : ObjId) : (e : Expr) →
    fvaExpr v e = (assignTargetsExpr e).any (fun i => i.oid == v)
  | .ident _ => by simp [fvaExpr, assignTargetsExpr]
  | .lit _ => by simp [fvaExpr, assignTargetsExpr]
  | .funcLit rps body => by simp [fvaExpr, assignTargetsExpr, fvaStmts_spec v body]
  | .call f args => by
      simp [fvaExpr, assignTargetsExpr, fvaExpr_spec v f, fvaExprs_spec v args]
  | .other es => by simp [fvaExpr, assignTargetsExpr, fvaExprs_spec v es]

theorem fvaExprs_spec (v : ObjId) : (es : List Expr) →
    fvaExprs v es = (assignTargetsExprs es).any (fun i => i.oid == v)
  | [] => by simp [fvaExprs, assignTargetsExprs]
  | e :: es => by
      simp [fvaExprs, assignTargetsExprs, fvaExpr_spec v e, fvaExprs_spec v es]

theorem fvaOptStmt_spec (v : ObjId) : (o : Option Stmt) →
    fvaOptStmt v o = (assignTargetsOptStmt o).any (fun i => i.oid == v)
  | none => by simp [fvaOptStmt, assignTargetsOptStmt]
  | some s => by simp [fvaOptStmt, assignTargetsOptStmt, fvaStmt_spec v s]

theorem fvaOptExpr_spec (v : ObjId) : (o : Option Expr) →
    fvaOptExpr v o = (assignTargetsOptExpr o).any (fun i => i.oid == v)
  | none => by simp [fvaOptExpr, assignTargetsOptExpr]
  | some e => by simp [fvaOptExpr, assignTargetsOptExpr, fvaExpr_spec v e]
end

mutual
theorem fdStmt_spec (v : ObjId) : (s : Stmt) →
    fdStmt v s = (defersStmt s).any (deferFunMatches v)
  | .block ss => by simp [fdStmt, defersStmt, fdStmts_spec v ss]
  | .ret rs => by simp [fdStmt, defersStmt, fdExprs_spec v rs]
  | .assign tok lhs rhs => by
      simp [fdStmt, defersStmt, fdExprs_spec v lhs, fdExprs_spec v rhs]
  | .varDecl ids vals => by simp [fdStmt, defersStmt, fdExprs_spec v vals]
  | .rangeStmt k val tok x body => by
      simp [fdStmt, defersStmt, fdOptExpr_spec v k, fdOptExpr_spec v val,
        fdExpr_spec v x, fdStmts_spec v body, Bool.or_assoc]
  | .forStmt init cond post body => by
      simp [fdStmt, defersStmt, fdOptStmt_spec v init, fdOptExpr_spec v cond,
        fdOptStmt_spec v post, fdStmts_spec v body, Bool.or_assoc]
  | .ifStmt init cond thn els => by
      simp [fdStmt, defersStmt, fdOptStmt_spec v init, fdExpr_spec v cond,
        fdStmts_spec v thn, fdOptStmt_spec v els, Bool.or_assoc]
  | .deferStmt fn args => by
      cases fn <;>
        simp [fdStmt, defersStmt, fdExpr_spec v, fdExprs_spec v args, deferFunMatches,
          fdStmts_spec v, Bool.or_assoc]
  | .exprStmt e => by simp [fdStmt, defersStmt, fdExpr_spec v e]
  | .empty => by simp [fdStmt, defersStmt]

theorem fdStmts_spec (v : ObjId) : (ss : List Stmt) →
    fdStmts v ss = (defersStmts ss).any (deferFunMatches v)
  | [] => by simp [fdStmts, defersStmts]
  | s :: ss => by
      simp [fdStmts, defersStmts, fdStmt_spec v s, fdStmts_spec v ss]

theorem fdExpr_spec (v : ObjId) : (e : Expr) →
    fdExpr v e = (defersExpr e).any (deferFunMatches v)
  | .ident _ => by simp [fdExpr, defersExpr]
  | .lit _ => by simp [fdExpr, defersExpr]
  | .funcLit rps body => by simp [fdExpr, defersExpr, fdStmts_spec v body]
  | .call f args => by
      simp [fdExpr, defersExpr, fdExpr_spec v f, fdExprs_spec v args]
  | .other es => by simp [fdExpr, defersExpr, fdExprs_spec v es]

theorem fdExprs_spec (v : ObjId) : (es : List Expr) →
    fdExprs v es = (defersExprs es).any (deferFunMatches v)
  | [] => by simp [fdExprs, defersExprs]
  | e :: es => by
      simp [fdExprs, defersExprs, fdExpr_spec v e, fdExprs_spec v es]

theorem fdOptStmt_spec (v : ObjId) : (o : Option Stmt) →
    fdOptStmt v o = (defersOptStmt o).any (deferFunMatches v)
  | none => by simp [fdOptStmt, defersOptStmt]
  | some s => by simp [fdOptStmt, defersOptStmt, fdStmt_spec v s]

theorem fdOptExpr_spec (v : ObjId) : (o : Option Expr) →
    fdOptExpr v o = (defersOptExpr o).any (deferFunMatches v)
  | none => by simp [fdOptExpr, defersOptExpr]
  | some e => by simp [fdOptExpr, defersOptExpr, fdExpr_spec v e]
end

/-- Characterization of the defer-exemption search: it succeeds exactly when
SOME defer statement anywhere in the body (at any nesting depth, not only
among the body's direct children) calls a function literal whose body
contains an assignment whose left-hand identifier resolves, by object
identity, to `v`. -/
theorem findDefer_iff (body : List Stmt) (v : ObjId) :
    findDeferWithVariableAssignment body v = true ↔
      ∃ fn ∈ defersStmts body, ∃ rps fb, fn = .funcLit rps fb ∧
        ∃ i ∈ assignTargetsStmts fb, i.oid = v := by
  rw [findDeferWithVariableAssignment, fdStmts_spec, List.any_eq_true]
  constructor
  · rintro ⟨fn, hmem, hfn⟩
    cases fn with
    | funcLit rps fb =>
        refine ⟨_, hmem, rps, fb, rfl, ?_⟩
        rw [deferFunMatches, findVariableAssignment, fvaStmts_spec,
          List.any_eq_true] at hfn
        obtain ⟨i, hi, hoid⟩ := hfn
        exact ⟨i, hi, by simpa using hoid⟩
    | ident i => simp [deferFunMatches] at hfn
    | lit s => simp [deferFunMatches] at hfn
    | call f args => simp [deferFunMatches] at hfn
    | other es => simp [deferFunMatches] at hfn
  · rintro ⟨fn, hmem, rps, fb, rfl, i, hi, hoid⟩
    refine ⟨_, hmem, ?_⟩
    rw [deferFunMatches, findVariableAssignment, fvaStmts_spec, List.any_eq_true]
    exact ⟨i, hi, by simpa using hoid⟩


mutual
theorem usageStmt_spec (funcPos : Pos) (names : List String) :
    (s : Stmt) → usageStmt funcPos names s =
      (allReturnsStmt s).flatMap (retDiags funcPos names)
  | .block ss => by
      simp [usageStmt, allReturnsStmt, usageStmts_spec funcPos names ss]
  | .ret rs => by
      simp [usageStmt, allReturnsStmt, usageExprs_spec funcPos names rs]
  | .assign tok lhs rhs => by
      simp [usageStmt, allReturnsStmt, usageExprs_spec funcPos names lhs,
        usageExprs_spec funcPos names rhs]
  | .varDecl ids vals => by
      simp [usageStmt, allReturnsStmt, usageExprs_spec funcPos names vals]
  | .rangeStmt k v tok x body => by
      simp [usageStmt, allReturnsStmt, usageOptExpr_spec funcPos names k,
        usageOptExpr_spec funcPos names v, usageExpr_spec funcPos names x,
        usageStmts_spec funcPos names body]
  | .forStmt init cond post body => by
      simp [usageStmt, allReturnsStmt, usageOptStmt_spec funcPos names init,
        usageOptExpr_spec funcPos names cond, usageOptStmt_spec funcPos names post,
        usageStmts_spec funcPos names body]
  | .ifStmt init cond thn els => by
      simp [usageStmt, allReturnsStmt, usageOptStmt_spec funcPos names init,
        usageExpr_spec funcPos names cond, usageStmts_spec funcPos names thn,
        usageOptStmt_spec funcPos names els]
  | .deferStmt fn args => by
      simp [usageStmt, allReturnsStmt, usageExpr_spec funcPos names fn,
        usageExprs_spec funcPos names args]
  | .exprStmt e => by
      simp [usageStmt, allReturnsStmt, usageExpr_spec funcPos names e]
  | .empty => by simp [usageStmt, allReturnsStmt]

theorem usageStmts_spec (funcPos : Pos) (names : List String) :
    (ss : List Stmt) → usageStmts funcPos names ss =
      (allReturnsStmts ss).flatMap (retDiags funcPos names)
  | [] => by simp [usageStmts, allReturnsStmts]
  | s :: ss => by
      simp [usageStmts, allReturnsStmts, usageStmt_spec funcPos names s,
        usageStmts_spec funcPos names ss]

theorem usageExpr_spec (funcPos : Pos) (names : List String) :
    (e : Expr) → usageExpr funcPos names e =
      (allReturnsExpr e).flatMap (retDiags funcPos names)
  | .ident _ => by simp [usageExpr, allReturnsExpr]
  | .lit _ => by simp [usageExpr, allReturnsExpr]
  | .funcLit rps body => by
      simp [usageExpr, allReturnsExpr, usageStmts_spec funcPos names body]
  | .call f args => by
      simp [usageExpr, allReturnsExpr, usageExpr_spec funcPos names f,
        usageExprs_spec funcPos names args]
  | .other es => by
      simp [usageExpr, allReturnsExpr, usageExprs_spec funcPos names es]

theorem usageExprs_spec (funcPos : Pos) (names : List String) :
    (es : List Expr) → usageExprs funcPos names es =
      (allReturnsExprs es).flatMap (retDiags funcPos names)
  | [] => by simp [usageExprs, allReturnsExprs]
  | e :: es => by
      simp [usageExprs, allReturnsExprs, usageExpr_spec funcPos names e,
        usageExprs_spec funcPos names es]

theorem usageOptStmt_spec (funcPos : Pos) (names : List String) :
    (o : Option Stmt) → usageOptStmt funcPos names o =
      (allReturnsOptStmt o).flatMap (retDiags funcPos names)
  | none => by simp [usageOptStmt, allReturnsOptStmt]
  | some s => by
      simp [usageOptStmt, allReturnsOptStmt, usageStmt_spec funcPos names s]

theorem usageOptExpr_spec (funcPos : Pos) (names : List String) :
    (o : Option Expr) → usageOptExpr funcPos names o =
      (allReturnsOptExpr o).flatMap (retDiags funcPos names)
  | none => by simp [usageOptExpr, allReturnsOptExpr]
  | some e => by
      simp [usageOptExpr, allReturnsOptExpr, usageExpr_spec funcPos names e]
end


/-- Every diagnostic of the usage checker is a `notUsedInReturn` for one of
the tracked names, positioned at the function. -/
theorem usage_mem (funcPos : Pos) (names : List String) (body : List Stmt) :
    ∀ d ∈ checkNamedReturnUsage funcPos names body,
      ∃ nm ∈ names, d = ⟨funcPos, .notUsedInReturn nm⟩ := by
  intro d hd
  rw [checkNamedReturnUsage, usageStmts_spec] at hd
  rw [List.mem_flatMap] at hd
  obtain ⟨rs, _, hd⟩ := hd
  rw [retDiags] at hd
  split at hd
  · cases hd
  · obtain ⟨nm, hnm, rfl⟩ := List.mem_map.mp hd
    exact ⟨nm, (List.mem_filter.mp hnm).1, rfl⟩


theorem shadowLhs_mem (names : List String) (lhs : List Expr) :
    ∀ d ∈ shadowLhs names lhs, IsShadowOf names d := by
  intro d hd
  rw [shadowLhs, List.mem_flatMap] at hd
  obtain ⟨l, _, hd⟩ := hd
  cases l with
  | ident i =>
      obtain ⟨nm, hnm, rfl⟩ := List.mem_map.mp hd
      exact ⟨nm, (List.mem_filter.mp hnm).1, Or.inl rfl⟩
  | lit s => cases hd
  | funcLit rps b => cases hd
  | call f args => cases hd
  | other es => cases hd

theorem shadowForInit_mem (names : List String) (lhs : List Expr) :
    ∀ d ∈ shadowForInit names lhs, IsShadowOf names d := by
  intro d hd
  rw [shadowForInit, List.mem_flatMap] at hd
  obtain ⟨l, _, hd⟩ := hd
  cases l with
  | ident i =>
      obtain ⟨nm, hnm, rfl⟩ := List.mem_map.mp hd
      exact ⟨nm, (List.mem_filter.mp hnm).1, Or.inr (Or.inr rfl)⟩
  | lit s => cases hd
  | funcLit rps b => cases hd
  | call f args => cases hd
  | other es => cases hd

theorem shadowDeclNames_mem (names : List String) (ids : List Ident) :
    ∀ d ∈ shadowDeclNames names ids, IsShadowOf names d := by
  intro d hd
  rw [shadowDeclNames, List.mem_flatMap] at hd
  obtain ⟨i, _, hd⟩ := hd
  obtain ⟨nm, hnm, rfl⟩ := List.mem_map.mp hd
  exact ⟨nm, (List.mem_filter.mp hnm).1, Or.inl rfl⟩

theorem shadowRangeVar_mem (names : List String) (o : Option Expr) :
    ∀ d ∈ shadowRangeVar names o, IsShadowOf names d := by
  intro d hd
  match o with
  | none => cases hd
  | some (.ident i) =>
      rw [shadowRangeVar] at hd
      obtain ⟨nm, hnm, rfl⟩ := List.mem_map.mp hd
      exact ⟨nm, (List.mem_filter.mp hnm).1, Or.inr (Or.inl rfl)⟩
  | some (.lit s) => cases hd
  | some (.funcLit rps b) => cases hd
  | some (.call f args) => cases hd
  | some (.other es) => cases hd

mutual
theorem shadowStmt_mem (names : List String) :
    (s : Stmt) → ∀ d ∈ shadowStmt names s, IsShadowOf names d
  | .block ss => by
      simp only [shadowStmt]
      exact shadowStmts_mem names ss
  | .ret rs => by
      simp only [shadowStmt]
      exact shadowExprs_mem names rs
  | .assign tok lhs rhs => by
      simp only [shadowStmt]
      intro d hd
      simp only [List.mem_append] at hd
      rcases hd with (hd | hd) | hd
      · split at hd
        · exact shadowLhs_mem names lhs d hd
        · cases hd
      · exact shadowExprs_mem names lhs d hd
      · exact shadowExprs_mem names rhs d hd
  | .varDecl ids vals => by
      simp only [shadowStmt]
      intro d hd
      rcases List.mem_append.mp hd with hd | hd
      · exact shadowDeclNames_mem names ids d hd
      · exact shadowExprs_mem names vals d hd
  | .rangeStmt k v tok x body => by
      simp only [shadowStmt]
      intro d hd
      simp only [List.mem_append] at hd
      rcases hd with ((((hd | hd) | hd) | hd) | hd) | hd
      · exact shadowRangeVar_mem names k d hd
      · exact shadowRangeVar_mem names v d hd
      · exact shadowOptExpr_mem names k d hd
      · exact shadowOptExpr_mem names v d hd
      · exact shadowExpr_mem names x d hd
      · exact shadowStmts_mem names body d hd
  | .forStmt init cond post body => by
      simp only [shadowStmt]
      intro d hd
      simp only [List.mem_append] at hd
      rcases hd with (((hd | hd) | hd) | hd) | hd
      · split at hd
        · split at hd
          · exact shadowForInit_mem names _ d hd
          · cases hd
        · cases hd
      · exact shadowOptStmt_mem names init d hd
      · exact shadowOptExpr_mem names cond d hd
      · exact shadowOptStmt_mem names post d hd
      · exact shadowStmts_mem names body d hd
  | .ifStmt init cond thn els => by
      simp only [shadowStmt]
      intro d hd
      simp only [List.mem_append] at hd
      rcases hd with ((hd | hd) | hd) | hd
      · exact shadowOptStmt_mem names init d hd
      · exact shadowExpr_mem names cond d hd
      · exact shadowStmts_mem names thn d hd
      · exact shadowOptStmt_mem names els d hd
  | .deferStmt fn args => by
      simp only [shadowStmt]
      intro d hd
      rcases List.mem_append.mp hd with hd | hd
      · exact shadowExpr_mem names fn d hd
      · exact shadowExprs_mem names args d hd
  | .exprStmt e => by
      simp only [shadowStmt]
      exact shadowExpr_mem names e
  | .empty => by
      simp only [shadowStmt]
      intro d hd
      cases hd

theorem shadowStmts_mem (names : List String) :
    (ss : List Stmt) → ∀ d ∈ shadowStmts names ss, IsShadowOf names d
  | [] => by
      simp only [shadowStmts]
      intro d hd
      cases hd
  | s :: ss => by
      simp only [shadowStmts]
      intro d hd
      rcases List.mem_append.mp hd with hd | hd
      · exact shadowStmt_mem names s d hd
      · exact shadowStmts_mem names ss d hd

theorem shadowExpr_mem (names : List String) :
    (e : Expr) → ∀ d ∈ shadowExpr names e, IsShadowOf names d
  | .ident i => by
      simp only [shadowExpr]
      intro d hd
      cases hd
  | .lit s => by
      simp only [shadowExpr]
      intro d hd
      cases hd
  | .funcLit rps body => by
      simp only [shadowExpr]
      exact shadowStmts_mem names body
  | .call f args => by
      simp only [shadowExpr]
      intro d hd
      rcases List.mem_append.mp hd with hd | hd
      · exact shadowExpr_mem names f d hd
      · exact shadowExprs_mem names args d hd
  | .other es => by
      simp only [shadowExpr]
      exact shadowExprs_mem names es

theorem shadowExprs_mem (names : List String) :
    (es : List Expr) → ∀ d ∈ shadowExprs names es, IsShadowOf names d
  | [] => by
      simp only [shadowExprs]
      intro d hd
      cases hd
  | e :: es => by
      simp only [shadowExprs]
      intro d hd
      rcases List.mem_append.mp hd with hd | hd
      · exact shadowExpr_mem names e d hd
      · exact shadowExprs_mem names es d hd

theorem shadowOptStmt_mem (names : List String) :
    (o : Option Stmt) → ∀ d ∈ shadowOptStmt names o, IsShadowOf names d
  | none => by
      simp only [shadowOptStmt]
      intro d hd
      cases hd
  | some s => by
      simp only [shadowOptStmt]
      exact shadowStmt_mem names s

theorem shadowOptExpr_mem (names : List String) :
    (o : Option Expr) → ∀ d ∈ shadowOptExpr names o, IsShadowOf names d
  | none => by
      simp only [shadowOptExpr]
      intro d hd
      cases hd
  | some e => by
      simp only [shadowOptExpr]
      exact shadowExpr_mem names e
end

theorem flatMap_nil_of {α β : Type} (g : α → List β) :
    (l : List α) → (∀ x ∈ l, g x = []) → l.flatMap g = []
  | [], _ => rfl
  | x :: l, h => by
      have hx := h x (List.mem_cons_self x l)
      simp [List.flatMap_cons, hx, flatMap_nil_of g l fun y hy => h y (List.mem_cons_of_mem x hy)]

theorem flatMap_filter_of_nil {α β : Type} (q : α → Bool) (g : α → List β) :
    (l : List α) → (∀ x ∈ l, q x = false → g x = []) →
      (l.filter q).flatMap g = l.flatMap g
  | [], _ => rfl
  | x :: l, h => by
      have ih := flatMap_filter_of_nil q g l fun y hy => h y (List.mem_cons_of_mem x hy)
      cases hq : q x with
      | true => simp [List.filter_cons, hq, ih]
      | false =>
          have hx := h x (List.mem_cons_self x l) hq
          simp [List.filter_cons, hq, ih, hx]

theorem usageStmts_append (funcPos : Pos) (names : List String) :
    (l1 l2 : List Stmt) → usageStmts funcPos names (l1 ++ l2) =
      usageStmts funcPos names l1 ++ usageStmts funcPos names l2
  | [], l2 => by simp [usageStmts]
  | s :: l1, l2 => by
      simp [usageStmts, usageStmts_append funcPos names l1 l2]

theorem shadowStmts_append (names : List String) :
    (l1 l2 : List Stmt) → shadowStmts names (l1 ++ l2) =
      shadowStmts names l1 ++ shadowStmts names l2
  | [], l2 => by simp [shadowStmts]
  | s :: l1, l2 => by
      simp [shadowStmts, shadowStmts_append names l1 l2]

theorem allReturnsStmts_append :
    (l1 l2 : List Stmt) → allReturnsStmts (l1 ++ l2) =
      allReturnsStmts l1 ++ allReturnsStmts l2
  | [], l2 => by simp [allReturnsStmts]
  | s :: l1, l2 => by
      simp [allReturnsStmts, allReturnsStmts_append l1 l2]

/-- The usage checker with an empty tracked set reports nothing. -/
theorem usage_names_nil (funcPos : Pos) (body : List Stmt) :
    checkNamedReturnUsage funcPos [] body = [] := by
  rw [checkNamedReturnUsage, usageStmts_spec]
  exact flatMap_nil_of _ _ fun rs _ => by simp [retDiags]

/-- The shadow detector with an empty tracked set reports nothing. -/
theorem shadow_names_nil (body : List Stmt) :
    checkNamedReturnShadowing [] body = [] := by
  rw [List.eq_nil_iff_forall_not_mem]
  intro d hd
  obtain ⟨nm, hnm, _⟩ := shadowStmts_mem [] body d hd
  cases hnm

/-- The diagnostics emitted during classification are exactly one
`underscoreReturn` per `_`-named entry, at the function position. -/
theorem classifyNames_fst (flag : Bool) (funcPos : Pos) (body : List Stmt) (ty : Ty) :
    (ns : List Ident) → (classifyNames flag funcPos body ty ns).1 =
      (ns.filter fun n => n.name == "_").map
        fun _ => (⟨funcPos, .underscoreReturn ty⟩ : Diag)
  | [] => by simp [classifyNames]
  | n :: ns => by
      have ih := classifyNames_fst flag funcPos body ty ns
      by_cases h : n.name = "_"
      · simp [classifyNames, h, ih]
      · cases hex : exemptErrName flag body ty n with
        | true => simp [classifyNames, h, hex, ih]
        | false => simp [classifyNames, h, hex, ih]

/-- The names collected during classification are exactly the non-placeholder
names that the defer-exemption test does not drop, in order. -/
theorem classifyNames_snd (flag : Bool) (funcPos : Pos) (body : List Stmt) (ty : Ty) :
    (ns : List Ident) → (classifyNames flag funcPos body ty ns).2 =
      (ns.filter fun n => !(n.name == "_") && !exemptErrName flag body ty n).map
        fun n => n.name
  | [] => by simp [classifyNames]
  | n :: ns => by
      have ih := classifyNames_snd flag funcPos body ty ns
      by_cases h : n.name = "_"
      · simp [classifyNames, h, ih]
      · cases hex : exemptErrName flag body ty n with
        | true => simp [classifyNames, h, hex, ih]
        | false => simp [classifyNames, h, hex, ih]

theorem classifyParams_fst (flag : Bool) (funcPos : Pos) (body : List Stmt) :
    (ps : List Param) → (classifyParams flag funcPos body ps).1 =
      ps.flatMap fun p =>
        if p.names.isEmpty then [(⟨funcPos, .unnamedReturn p.ty⟩ : Diag)]
        else (p.names.filter fun n => n.name == "_").map
          fun _ => (⟨funcPos, .underscoreReturn p.ty⟩ : Diag)
  | [] => by simp [classifyParams]
  | p :: ps => by
      have ih := classifyParams_fst flag funcPos body ps
      by_cases h : p.names.isEmpty
      · have hn : p.names = [] := by simpa using h
        simp [classifyParams, h, hn, ih]
      · have hn : ¬p.names = [] := by simpa using h
        simp [classifyParams, h, hn, ih, classifyNames_fst]

theorem classifyParams_snd (flag : Bool) (funcPos : Pos) (body : List Stmt) :
    (ps : List Param) → (classifyParams flag funcPos body ps).2 =
      ps.flatMap fun p => (classifyNames flag funcPos body p.ty p.names).2
  | [] => by simp [classifyParams]
  | p :: ps => by
      have ih := classifyParams_snd flag funcPos body ps
      by_cases h : p.names.isEmpty
      · have : p.names = [] := by simpa using h
        simp [classifyParams, h, ih, this, classifyNames]
      · simp [classifyParams, h, ih]

/-- Every classification diagnostic is an `unnamedReturn` or an
`underscoreReturn`, positioned at the function. -/
theorem classifyParams_fst_mem (flag : Bool) (funcPos : Pos) (body : List Stmt)
    (ps : List Param) :
    ∀ d ∈ (classifyParams flag funcPos body ps).1, d.pos = funcPos ∧
      ∃ ty, d.msg = .unnamedReturn ty ∨ d.msg = .underscoreReturn ty := by
  intro d hd
  rw [classifyParams_fst] at hd
  rw [List.mem_flatMap] at hd
  obtain ⟨p, _, hd⟩ := hd
  split at hd
  · rw [List.mem_singleton] at hd
    subst hd
    exact ⟨rfl, p.ty, Or.inl rfl⟩
  · obtain ⟨n, _, rfl⟩ := List.mem_map.mp hd
    exact ⟨rfl, p.ty, Or.inr rfl⟩

/-- With the `report-error-in-defer` flag enabled, classification never
consults the function body: the defer-exemption resolver is skipped. -/
theorem classifyNames_flag_true (funcPos : Pos) (ty : Ty) (b b' : List Stmt) :
    (ns : List Ident) →
      classifyNames true funcPos b ty ns = classifyNames true funcPos b' ty ns
  | [] => by simp [classifyNames]
  | n :: ns => by
      have ih := classifyNames_flag_true funcPos ty b b' ns
      by_cases h : n.name = "_" <;> simp [classifyNames, h, ih, exemptErrName]

theorem classifyParams_flag_true (funcPos : Pos) (b b' : List Stmt) :
    (ps : List Param) →
      classifyParams true funcPos b ps = classifyParams true funcPos b' ps
  | [] => by simp [classifyParams]
  | p :: ps => by
      have ih := classifyParams_flag_true funcPos b b' ps
      by_cases h : p.names.isEmpty <;>
        simp [classifyParams, h, ih, classifyNames_flag_true funcPos p.ty b b']

/-- The per-function engine run decomposes into classification diagnostics,
usage diagnostics, and shadowing diagnostics, in that order (when the tracked
set is empty the last two lists are empty, so the equation is unconditional). -/
theorem runFunc_eq (flag : Bool) (f : FuncUnit) (ps : List Param) (body : List Stmt)
    (h1 : f.results = some ps) (h2 : f.body = some body) :
    runFunc flag f = (classifyParams flag f.pos body ps).1 ++
      checkNamedReturnUsage f.pos (classifyParams flag f.pos body ps).2 body ++
      checkNamedReturnShadowing (classifyParams flag f.pos body ps).2 body := by
  rw [runFunc, h2, h1]
  by_cases h : (classifyParams flag f.pos body ps).2.isEmpty
  · have hnil : (classifyParams flag f.pos body ps).2 = [] := by simpa using h
    simp [h, hnil, usage_names_nil, shadow_names_nil]
  · simp [h]

theorem filter_flatMap {α β : Type} (q : β → Bool) (g : α → List β) :
    (l : List α) → (l.flatMap g).filter q = l.flatMap fun x => (g x).filter q
  | [] => rfl
  | x :: l => by
      simp [List.flatMap_cons, List.filter_append, filter_flatMap q g l]

theorem flatMap_if_singleton {α β : Type} (q : α → Bool) (g : α → β) :
    (l : List α) → (l.flatMap fun x => if q x then [g x] else []) =
      (l.filter q).map g
  | [] => rfl
  | x :: l => by
      cases hq : q x <;>
        simp [List.flatMap_cons, List.filter_cons, hq, flatMap_if_singleton q g l]

/-- How many `notUsedInReturn nm` diagnostics one return statement yields:
one when the statement is explicit and does not use `nm` (provided `nm`
occurs exactly once in the tracked list), zero otherwise. -/
theorem count_retDiags (funcPos : Pos) (names : List String) (nm : String)
    (h1 : names.count nm = 1) (rs : List Expr) :
    (retDiags funcPos names rs).count ⟨funcPos, .notUsedInReturn nm⟩ =
      if !rs.isEmpty && !usesName rs nm then 1 else 0 := by
  rw [retDiags]
  by_cases he : rs.isEmpty
  · simp [he]
  · have he' : rs.isEmpty = false := by simpa using he
    rw [if_neg he]
    have hinj : Function.Injective
        (fun nm => (⟨funcPos, .notUsedInReturn nm⟩ : Diag)) := by
      intro a b hab
      simpa using hab
    have hcm := List.count_map_of_injective
      (names.filter fun x => !usesName rs x)
      (fun nm => (⟨funcPos, .notUsedInReturn nm⟩ : Diag)) hinj nm
    cases hu : usesName rs nm with
    | true =>
        have hnm : nm ∉ names.filter fun x => !usesName rs x := by
          intro hmem
          have := (List.mem_filter.mp hmem).2
          simp [hu] at this
        rw [hcm, List.count_eq_zero.mpr hnm]
        simp [he', hu]
    | false =>
        have hq : (!usesName rs nm) = true := by simp [hu]
        rw [hcm]
        have hcnt : List.count nm (List.filter (fun x => !usesName rs x) names) =
            List.count nm names := List.count_filter hq
        rw [hcnt, h1]
        simp [he', hu]

theorem count_flatMap_retDiags (funcPos : Pos) (names : List String) (nm : String)
    (h1 : names.count nm = 1) :
    (rss : List (List Expr)) →
      ((rss.flatMap (retDiags funcPos names)).count ⟨funcPos, .notUsedInReturn nm⟩) =
        (rss.filter fun rs => !rs.isEmpty && !usesName rs nm).length
  | [] => rfl
  | rs :: rss => by
      have ih := count_flatMap_retDiags funcPos names nm h1 rss
      rw [List.flatMap_cons, List.count_append, count_retDiags funcPos names nm h1 rs,
        List.filter_cons]
      cases hq : (!rs.isEmpty && !usesName rs nm) <;> simp [ih, Nat.add_comm]

/-- Membership in the tracked named-return set, unfolded: the name is bound
by some result parameter, is not the placeholder, and is not dropped by the
defer-exemption test. -/
theorem mem_tracked_iff (flag : Bool) (funcPos : Pos) (body : List Stmt)
    (ps : List Param) (nm : String) :
    nm ∈ (classifyParams flag funcPos body ps).2 ↔
      ∃ p ∈ ps, ∃ n ∈ p.names, n.name = nm ∧ ¬n.name = "_" ∧
        exemptErrName flag body p.ty n = false := by
  rw [classifyParams_snd]
  rw [List.mem_flatMap]
  constructor
  · rintro ⟨p, hp, hmem⟩
    rw [classifyNames_snd] at hmem
    obtain ⟨n, hn, rfl⟩ := List.mem_map.mp hmem
    obtain ⟨hn1, hn2⟩ := List.mem_filter.mp hn
    have := (Bool.and_eq_true _ _).mp hn2
    refine ⟨p, hp, n, hn1, rfl, ?_, ?_⟩
    · intro h
      have := this.1
      simp [h] at this
    · have := this.2
      simpa using this
  · rintro ⟨p, hp, n, hn, rfl, hus, hex⟩
    refine ⟨p, hp, ?_⟩
    rw [classifyNames_snd]
    refine List.mem_map.mpr ⟨n, ?_, rfl⟩
    refine List.mem_filter.mpr ⟨hn, ?_⟩
    simp [hus, hex]

/-- C1 counterexample: the usage checker DOES check a return statement lying
inside a nested closure against the enclosing function's tracked named
returns. In `closureRetFunc` the enclosing function's own return correctly
names `x`; the only offending return (`return 0`) sits inside a nested
function literal, yet the run reports a `notUsedInReturn "x"` diagnostic —
the claim predicted no diagnostic for it. -/
theorem claim_C1_counterexample :
    runFunc false closureRetFunc = [⟨1, .notUsedInReturn "x"⟩] := by
  simp [closureRetFunc, closureRetBody, runFunc, classifyParams, classifyNames,
    exemptErrName, checkNamedReturnUsage, usageStmts, usageStmt, usageExpr, usageExprs,
    retDiags, usesName, checkNamedReturnShadowing, shadowStmts, shadowStmt, shadowExpr,
    shadowExprs]

/-- C1 (amended): the return-usage checker examines every return statement of
the body — nested inner blocks, branches and loops included — and ALSO the
return statements inside nested closures, because the `ast.Inspect` callback
of `checkNamedReturnUsage` always returns true and therefore descends into
function literals; each return is checked against the enclosing function's
tracked named return variables (`allReturnsStmts` enumerates the returns of
the whole subtree, function-literal bodies included). -/
theorem claim_C1_usage_checks_all_returns (funcPos : Pos) (names : List String)
    (body : List Stmt) :
    checkNamedReturnUsage funcPos names body =
      (allReturnsStmts body).flatMap (retDiags funcPos names) := by
  rw [checkNamedReturnUsage, usageStmts_spec]

/-- C8: a bare return statement (zero result expressions) never produces a
return-mismatch diagnostic: the usage checker's output equals the output
computed from the explicit (non-bare) returns alone, for any function body
and any tracked set. -/
theorem claim_C8_bare_return_no_diag (funcPos : Pos) (names : List String)
    (body : List Stmt) :
    checkNamedReturnUsage funcPos names body =
      ((allReturnsStmts body).filter fun rs => !rs.isEmpty).flatMap
        (retDiags funcPos names) := by
  rw [checkNamedReturnUsage, usageStmts_spec]
  refine (flatMap_filter_of_nil _ _ _ fun rs _ hq => ?_).symm
  have : rs.isEmpty = true := by simpa using hq
  simp [retDiags, this]

/-- C9: the run's `unnamedReturn` diagnostics are exactly one per unnamed
result parameter, carrying that parameter's declared type and positioned at
the function unit; the right-hand side does not depend on the body, so the
diagnostics are independent of the body's content. -/
theorem claim_C9_unnamed_results (flag : Bool) (f : FuncUnit) (ps : List Param)
    (body : List Stmt) (h1 : f.results = some ps) (h2 : f.body = some body) :
    (runFunc flag f).filter (fun d => d.msg.isUnnamed) =
      (ps.filter fun p => p.names.isEmpty).map
        fun p => (⟨f.pos, .unnamedReturn p.ty⟩ : Diag) := by
  rw [runFunc_eq flag f ps body h1 h2]
  rw [List.filter_append, List.filter_append]
  have hu : (checkNamedReturnUsage f.pos (classifyParams flag f.pos body ps).2 body).filter
      (fun d => d.msg.isUnnamed) = [] := by
    rw [List.filter_eq_nil_iff]
    intro d hd
    obtain ⟨nm, _, rfl⟩ := usage_mem _ _ _ d hd
    simp [Msg.isUnnamed]
  have hs : (checkNamedReturnShadowing (classifyParams flag f.pos body ps).2 body).filter
      (fun d => d.msg.isUnnamed) = [] := by
    rw [List.filter_eq_nil_iff]
    intro d hd
    obtain ⟨nm, _, hmsg⟩ := shadowStmts_mem _ body d hd
    rcases hmsg with h | h | h <;> simp [Msg.isUnnamed, h]
  rw [hu, hs, List.append_nil, List.append_nil]
  rw [classifyParams_fst, filter_flatMap]
  have hper : ∀ p : Param,
      ((if p.names.isEmpty then [(⟨f.pos, .unnamedReturn p.ty⟩ : Diag)]
        else (p.names.filter fun n => n.name == "_").map
          fun _ => (⟨f.pos, .underscoreReturn p.ty⟩ : Diag)).filter
        fun d => d.msg.isUnnamed) =
      if p.names.isEmpty then [(⟨f.pos, .unnamedReturn p.ty⟩ : Diag)] else [] := by
    intro p
    by_cases h : p.names.isEmpty
    · simp [h, Msg.isUnnamed]
    · rw [if_neg h, if_neg h, List.filter_eq_nil_iff]
      intro d hd
      obtain ⟨n, _, rfl⟩ := List.mem_map.mp hd
      simp [Msg.isUnnamed]
  simp only [hper, flatMap_if_singleton]

/-- C9 witness: a function with two unnamed results (types int and string)
around a named error result yields exactly the two `unnamedReturn`
diagnostics of the claim, at the function position. -/
theorem claim_C9_witness :
    (runFunc false ⟨1, some [⟨[], .int⟩, ⟨[⟨"e", 1, 3⟩], .stdError⟩, ⟨[], .other "string"⟩],
        some [.ret [.ident ⟨"e", 1, 5⟩]]⟩).filter (fun d => d.msg.isUnnamed) =
      (([⟨[], Ty.int⟩, ⟨[⟨"e", 1, 3⟩], Ty.stdError⟩, ⟨[], Ty.other "string"⟩] :
          List Param).filter
        fun p => p.names.isEmpty).map fun p => (⟨1, .unnamedReturn p.ty⟩ : Diag) :=
  claim_C9_unnamed_results false _ _ _ rfl rfl

/-- C3 counterexample: the placeholder diagnostic is positioned at the
FUNCTION (position 1), not at the `_` name (position 5), contrary to the
claim's "positioned at that name". -/
theorem claim_C3_counterexample :
    runFunc false ⟨1, some [⟨[⟨"_", 0, 5⟩], .int⟩], some []⟩ =
      [⟨1, .underscoreReturn .int⟩] ∧
    (⟨5, .underscoreReturn .int⟩ : Diag) ∉
      runFunc false ⟨1, some [⟨[⟨"_", 0, 5⟩], .int⟩], some []⟩ := by
  constructor
  · simp [runFunc, classifyParams, classifyNames, exemptErrName]
  · simp [runFunc, classifyParams, classifyNames, exemptErrName]

/-- C3 (amended): for each declared result name equal to `_`, exactly one
placeholder diagnostic is emitted — positioned at the FUNCTION UNIT, not at
the name — and the placeholder name is never added to the tracked set, so no
diagnostic of the run (return-mismatch or shadowed-return included) ever
names `_`. -/
theorem claim_C3_placeholder (flag : Bool) (f : FuncUnit) (ps : List Param)
    (body : List Stmt) (h1 : f.results = some ps) (h2 : f.body = some body) :
    (runFunc flag f).filter (fun d => d.msg.isUnderscore) =
      (ps.flatMap fun p => (p.names.filter fun n => n.name == "_").map
        fun _ => (⟨f.pos, .underscoreReturn p.ty⟩ : Diag)) ∧
    "_" ∉ (classifyParams flag f.pos body ps).2 ∧
    (runFunc flag f).all (fun d => !(d.msg.mentions "_")) = true := by
  have hnotin : "_" ∉ (classifyParams flag f.pos body ps).2 := by
    intro hmem
    obtain ⟨p, _, n, _, hne, hus, _⟩ := (mem_tracked_iff flag f.pos body ps "_").mp hmem
    exact hus hne
  refine ⟨?_, hnotin, ?_⟩
  · rw [runFunc_eq flag f ps body h1 h2]
    rw [List.filter_append, List.filter_append]
    have hu : (checkNamedReturnUsage f.pos (classifyParams flag f.pos body ps).2
        body).filter (fun d => d.msg.isUnderscore) = [] := by
      rw [List.filter_eq_nil_iff]
      intro d hd
      obtain ⟨nm, _, rfl⟩ := usage_mem _ _ _ d hd
      simp [Msg.isUnderscore]
    have hs : (checkNamedReturnShadowing (classifyParams flag f.pos body ps).2
        body).filter (fun d => d.msg.isUnderscore) = [] := by
      rw [List.filter_eq_nil_iff]
      intro d hd
      obtain ⟨nm, _, hmsg⟩ := shadowStmts_mem _ body d hd
      rcases hmsg with h | h | h <;> simp [Msg.isUnderscore, h]
    rw [hu, hs, List.append_nil, List.append_nil]
    rw [classifyParams_fst, filter_flatMap]
    congr 1
    funext p
    by_cases h : p.names.isEmpty
    · have hn : p.names = [] := by simpa using h
      simp [h, hn, Msg.isUnderscore]
    · rw [if_neg h]
      refine List.filter_eq_self.mpr ?_
      intro d hd
      obtain ⟨n, _, rfl⟩ := List.mem_map.mp hd
      simp [Msg.isUnderscore]
  · rw [List.all_eq_true]
    intro d hd
    rw [runFunc_eq flag f ps body h1 h2] at hd
    rcases List.mem_append.mp hd with hd | hd
    rotate_left
    · obtain ⟨nm, hnm, hmsg⟩ := shadowStmts_mem _ body d hd
      have hne : nm ≠ "_" := fun he => hnotin (he ▸ hnm)
      rcases hmsg with h | h | h <;> simp [Msg.mentions, h, hne]
    rcases List.mem_append.mp hd with hd | hd
    · obtain ⟨hpos, ty, hmsg⟩ := classifyParams_fst_mem flag f.pos body ps d hd
      rcases hmsg with h | h <;> simp [Msg.mentions, h]
    · obtain ⟨nm, hnm, rfl⟩ := usage_mem _ _ _ d hd
      have hne : nm ≠ "_" := fun he => hnotin (he ▸ hnm)
      simp [Msg.mentions, hne]

/-- C3 witness: a function declaring `(_ int, r int)` with a compliant body
gets exactly one placeholder diagnostic at the function position, `_` is not
tracked, and no diagnostic names `_`. -/
theorem claim_C3_witness :
    (runFunc false ⟨1, some [⟨[⟨"_", 0, 5⟩], .int⟩, ⟨[⟨"r", 2, 6⟩], .int⟩],
        some [.ret [.ident ⟨"r", 2, 9⟩]]⟩).filter (fun d => d.msg.isUnderscore) =
      (([⟨[⟨"_", 0, 5⟩], Ty.int⟩, ⟨[⟨"r", 2, 6⟩], Ty.int⟩] : List Param).flatMap
        fun p => (p.names.filter fun n => n.name == "_").map
          fun _ => (⟨1, .underscoreReturn p.ty⟩ : Diag)) ∧
    "_" ∉ (classifyParams false 1 [.ret [.ident ⟨"r", 2, 9⟩]]
      [⟨[⟨"_", 0, 5⟩], Ty.int⟩, ⟨[⟨"r", 2, 6⟩], Ty.int⟩]).2 ∧
    (runFunc false ⟨1, some [⟨[⟨"_", 0, 5⟩], .int⟩, ⟨[⟨"r", 2, 6⟩], .int⟩],
        some [.ret [.ident ⟨"r", 2, 9⟩]]⟩).all
      (fun d => !(d.msg.mentions "_")) = true :=
  claim_C3_placeholder false _ _ _ rfl rfl

/-- C4: with the `report-error-in-defer` flag enabled the defer-exemption
resolver is skipped — classification does not depend on the body at all — so
every named return tracked once (such as an error assigned only inside a
deferred closure) yields exactly one `notUsedInReturn` diagnostic, positioned
at the enclosing function, per explicit (non-bare) return statement that
omits it. -/
theorem claim_C4_flag_disables_exemption
    (f : FuncUnit) (ps : List Param) (body : List Stmt) (nm : String)
    (h1 : f.results = some ps) (h2 : f.body = some body)
    (hcount : ((classifyParams true f.pos body ps).2).count nm = 1) :
    (∀ b' : List Stmt,
      classifyParams true f.pos b' ps = classifyParams true f.pos body ps) ∧
    (runFunc true f).count ⟨f.pos, .notUsedInReturn nm⟩ =
      ((allReturnsStmts body).filter fun rs => !rs.isEmpty && !usesName rs nm).length := by
  refine ⟨fun b' => classifyParams_flag_true f.pos b' body ps, ?_⟩
  rw [runFunc_eq true f ps body h1 h2]
  rw [List.count_append, List.count_append]
  have hc1 : (classifyParams true f.pos body ps).1.count
      ⟨f.pos, .notUsedInReturn nm⟩ = 0 := by
    rw [List.count_eq_zero]
    intro hmem
    obtain ⟨_, ty, hmsg⟩ := classifyParams_fst_mem true f.pos body ps _ hmem
    rcases hmsg with h | h <;> simp at h
  have hsh : (checkNamedReturnShadowing (classifyParams true f.pos body ps).2
      body).count ⟨f.pos, .notUsedInReturn nm⟩ = 0 := by
    rw [List.count_eq_zero]
    intro hmem
    obtain ⟨nm', _, hmsg⟩ := shadowStmts_mem _ body _ hmem
    rcases hmsg with h | h | h <;> simp at h
  rw [hc1, hsh]
  rw [checkNamedReturnUsage, usageStmts_spec,
    count_flatMap_retDiags f.pos _ nm hcount]
  simp

/-- C4 witness: `func() (v int, err error)` whose only reference to `err` is
inside a deferred closure; with the flag on, classification ignores the body
and each of the two explicit returns omitting `err` is counted. -/
theorem claim_C4_witness :
    (runFunc true errDeferFunc).count ⟨2, .notUsedInReturn "err"⟩ =
      ((allReturnsStmts errDeferBody).filter
        fun rs => !rs.isEmpty && !usesName rs "err").length ∧
    classifyParams true 2 [] errDeferParams =
      classifyParams true 2 errDeferBody errDeferParams :=
  ⟨(claim_C4_flag_disables_exemption errDeferFunc errDeferParams errDeferBody "err"
      rfl rfl (by decide)).2,
   (claim_C4_flag_disables_exemption errDeferFunc errDeferParams errDeferBody "err"
      rfl rfl (by decide)).1 []⟩

/-- C5: for a function declaring a single named result later redeclared via a
short-form `:=` inside an inner block (here: the branch of an if-statement
with arbitrary condition, so reachability is irrelevant), and no other
shadowing construct anywhere, exactly one `shadowedByLocal` diagnostic is
emitted, positioned at the shadowing identifier inside the inner block. -/
theorem claim_C5_shadow_inner_block (flag : Bool) (q p : Pos) (o o2 : ObjId)
    (nm : String) (f : FuncUnit) (body ss1 ss2 bs1 bs2 : List Stmt)
    (c : Expr) (els : Option Stmt) (rhs : List Expr)
    (hnm : nm ≠ "_")
    (h1 : f.results = some [⟨[⟨nm, o, q⟩], .int⟩]) (h2 : f.body = some body)
    (hb : body = ss1 ++ (.ifStmt none c
      (bs1 ++ (.assign .define [.ident ⟨nm, o2, p⟩] rhs) :: bs2) els) :: ss2)
    (hss1 : shadowStmts [nm] ss1 = []) (hss2 : shadowStmts [nm] ss2 = [])
    (hbs1 : shadowStmts [nm] bs1 = []) (hbs2 : shadowStmts [nm] bs2 = [])
    (hc : shadowExpr [nm] c = []) (hels : shadowOptStmt [nm] els = [])
    (hrhs : shadowExprs [nm] rhs = []) :
    (runFunc flag f).filter (fun d => d.msg.isShadow) =
      [⟨p, .shadowedByLocal nm⟩] := by
  subst hb
  have tracked : (classifyParams flag f.pos
      (ss1 ++ (Stmt.ifStmt none c
        (bs1 ++ (Stmt.assign .define [.ident ⟨nm, o2, p⟩] rhs) :: bs2) els) :: ss2)
      [⟨[⟨nm, o, q⟩], Ty.int⟩]).2 = [nm] := by
    rw [classifyParams_snd]
    simp [classifyNames_snd, exemptErrName, hnm]
  have c1 : (classifyParams flag f.pos
      (ss1 ++ (Stmt.ifStmt none c
        (bs1 ++ (Stmt.assign .define [.ident ⟨nm, o2, p⟩] rhs) :: bs2) els) :: ss2)
      [⟨[⟨nm, o, q⟩], Ty.int⟩]).1 = [] := by
    rw [classifyParams_fst]
    simp [hnm]
  rw [runFunc_eq flag f _ _ h1 h2, tracked, c1]
  have hufil : (checkNamedReturnUsage f.pos [nm]
      (ss1 ++ (Stmt.ifStmt none c
        (bs1 ++ (Stmt.assign .define [.ident ⟨nm, o2, p⟩] rhs) :: bs2) els) :: ss2)).filter
      (fun d => d.msg.isShadow) = [] := by
    rw [List.filter_eq_nil_iff]
    intro d hd
    obtain ⟨x, _, rfl⟩ := usage_mem _ _ _ d hd
    simp [Msg.isShadow]
  have hshadow : checkNamedReturnShadowing [nm]
      (ss1 ++ (Stmt.ifStmt none c
        (bs1 ++ (Stmt.assign .define [.ident ⟨nm, o2, p⟩] rhs) :: bs2) els) :: ss2) =
      [⟨p, .shadowedByLocal nm⟩] := by
    rw [checkNamedReturnShadowing, shadowStmts_append]
    rw [hss1]
    simp only [shadowStmts, hss2, List.append_nil, List.nil_append]
    simp only [shadowStmt, shadowOptStmt, hc, hels, List.append_nil, List.nil_append]
    rw [shadowStmts_append, hbs1]
    simp only [shadowStmts, hbs2, List.append_nil, List.nil_append]
    simp only [shadowStmt, hrhs, List.append_nil]
    simp [shadowLhs, shadowExprs, shadowExpr]
  rw [List.filter_append, List.filter_append, hufil, hshadow]
  simp [Msg.isShadow]

/-- C5 witness: `func() (res int)` with `if true { res := 5 }` followed by
`return res` yields exactly one shadowing diagnostic, at position 7 (the
inner `res`). -/
theorem claim_C5_witness :
    (runFunc false ⟨1, some [⟨[⟨"res", 1, 2⟩], .int⟩],
      some ([] ++ (.ifStmt none (.lit "true")
        ([] ++ (.assign .define [.ident ⟨"res", 3, 7⟩] [.lit "5"]) :: []) none) ::
        [.ret [.ident ⟨"res", 1, 9⟩]])⟩).filter (fun d => d.msg.isShadow) =
      [⟨7, .shadowedByLocal "res"⟩] :=
  claim_C5_shadow_inner_block false 2 7 1 3 "res" _ _ [] [.ret [.ident ⟨"res", 1, 9⟩]]
    [] [] (.lit "true") none [.lit "5"] (by decide) rfl rfl rfl
    (by simp [shadowStmts])
    (by simp [shadowStmts, shadowStmt, shadowExprs, shadowExpr])
    (by simp [shadowStmts]) (by simp [shadowStmts])
    (by simp [shadowExpr]) (by simp [shadowOptStmt])
    (by simp [shadowExprs, shadowExpr])

/-- C6: when a for statement's initializer is a short-form declaration
binding a tracked name, the run contains BOTH a "for loop variable"
diagnostic (from the ForStmt case) and a "local variable declaration"
diagnostic (from the AssignStmt case, reached when the traversal descends
into the initializer), at the same identifier position. -/
theorem claim_C6_for_init_double_report (flag : Bool) (f : FuncUnit) (ps : List Param)
    (body ss1 ss2 fbody : List Stmt) (cond : Option Expr) (post : Option Stmt)
    (rhs : List Expr) (nm : String) (o : ObjId) (p : Pos)
    (h1 : f.results = some ps) (h2 : f.body = some body)
    (hb : body = ss1 ++ (.forStmt (some (.assign .define [.ident ⟨nm, o, p⟩] rhs))
      cond post fbody) :: ss2)
    (htr : nm ∈ (classifyParams flag f.pos body ps).2) :
    ⟨p, .shadowedByFor nm⟩ ∈ runFunc flag f ∧
    ⟨p, .shadowedByLocal nm⟩ ∈ runFunc flag f := by
  subst hb
  rw [runFunc_eq flag f ps _ h1 h2]
  have hstep : ∀ d : Diag,
      d ∈ shadowStmt (classifyParams flag f.pos
        (ss1 ++ (Stmt.forStmt (some (.assign .define [.ident ⟨nm, o, p⟩] rhs))
          cond post fbody) :: ss2) ps).2
        (.forStmt (some (.assign .define [.ident ⟨nm, o, p⟩] rhs)) cond post fbody) →
      d ∈ (classifyParams flag f.pos
          (ss1 ++ (Stmt.forStmt (some (.assign .define [.ident ⟨nm, o, p⟩] rhs))
            cond post fbody) :: ss2) ps).1 ++
        checkNamedReturnUsage f.pos (classifyParams flag f.pos
          (ss1 ++ (Stmt.forStmt (some (.assign .define [.ident ⟨nm, o, p⟩] rhs))
            cond post fbody) :: ss2) ps).2
          (ss1 ++ (Stmt.forStmt (some (.assign .define [.ident ⟨nm, o, p⟩] rhs))
            cond post fbody) :: ss2) ++
        checkNamedReturnShadowing (classifyParams flag f.pos
          (ss1 ++ (Stmt.forStmt (some (.assign .define [.ident ⟨nm, o, p⟩] rhs))
            cond post fbody) :: ss2) ps).2
          (ss1 ++ (Stmt.forStmt (some (.assign .define [.ident ⟨nm, o, p⟩] rhs))
            cond post fbody) :: ss2) := by
    intro d hd
    refine List.mem_append.mpr (Or.inr ?_)
    rw [checkNamedReturnShadowing, shadowStmts_append]
    refine List.mem_append.mpr (Or.inr ?_)
    simp only [shadowStmts]
    exact List.mem_append.mpr (Or.inl hd)
  constructor
  · refine hstep _ ?_
    simp only [shadowStmt]
    refine List.mem_append.mpr (Or.inl (List.mem_append.mpr (Or.inl
      (List.mem_append.mpr (Or.inl (List.mem_append.mpr (Or.inl ?_)))))))
    simp only [shadowForInit, List.flatMap_cons, List.flatMap_nil, List.append_nil]
    exact List.mem_map.mpr ⟨nm, List.mem_filter.mpr ⟨htr, by simp⟩, rfl⟩
  · refine hstep _ ?_
    simp only [shadowStmt]
    refine List.mem_append.mpr (Or.inl (List.mem_append.mpr (Or.inl
      (List.mem_append.mpr (Or.inl (List.mem_append.mpr (Or.inr ?_)))))))
    simp only [shadowOptStmt, shadowStmt]
    refine List.mem_append.mpr (Or.inl (List.mem_append.mpr (Or.inl ?_)))
    simp only [if_pos rfl, shadowLhs, List.flatMap_cons, List.flatMap_nil,
      List.append_nil]
    exact List.mem_map.mpr ⟨nm, List.mem_filter.mpr ⟨htr, by simp⟩, rfl⟩

/-- C6 witness: `func() (i int)` with `for i := 0; ; { }` receives both
shadowing diagnostics at position 7. -/
theorem claim_C6_witness :
    (⟨7, .shadowedByFor "i"⟩ : Diag) ∈ runFunc false ⟨1, some [⟨[⟨"i", 1, 2⟩], .int⟩],
      some ([] ++ (.forStmt (some (.assign .define [.ident ⟨"i", 2, 7⟩] [.lit "0"]))
        none none []) :: [])⟩ ∧
    (⟨7, .shadowedByLocal "i"⟩ : Diag) ∈ runFunc false ⟨1, some [⟨[⟨"i", 1, 2⟩], .int⟩],
      some ([] ++ (.forStmt (some (.assign .define [.ident ⟨"i", 2, 7⟩] [.lit "0"]))
        none none []) :: [])⟩ :=
  claim_C6_for_init_double_report false _ _ _ [] [] [] none none [.lit "0"] "i" 2 7
    rfl rfl rfl
    (by simp [classifyParams_snd, classifyNames_snd, exemptErrName])

/-- C10: a range statement whose KEY or VALUE expression is an identifier
equal to a tracked name triggers a `shadowedByRange` diagnostic even when the
range uses plain assignment (`=`, token `assign`) rather than `:=` — no new
binding is introduced, the named return itself is assigned, yet the
diagnostic is still emitted. The hypothesis `hslot` lets the matching
identifier sit in either slot (the RangeStmt case of the shadow detector
checks both, regardless of the token). -/
theorem claim_C10_range_plain_assign (flag : Bool) (f : FuncUnit) (ps : List Param)
    (body ss1 ss2 rbody : List Stmt) (k v : Option Expr) (x : Expr)
    (nm : String) (o : ObjId) (p : Pos)
    (h1 : f.results = some ps) (h2 : f.body = some body)
    (hb : body = ss1 ++ (.rangeStmt k v .assign x rbody) :: ss2)
    (hslot : k = some (.ident ⟨nm, o, p⟩) ∨ v = some (.ident ⟨nm, o, p⟩))
    (htr : nm ∈ (classifyParams flag f.pos body ps).2) :
    ⟨p, .shadowedByRange nm⟩ ∈ runFunc flag f := by
  subst hb
  rw [runFunc_eq flag f ps _ h1 h2]
  refine List.mem_append.mpr (Or.inr ?_)
  rw [checkNamedReturnShadowing, shadowStmts_append]
  refine List.mem_append.mpr (Or.inr ?_)
  simp only [shadowStmts]
  refine List.mem_append.mpr (Or.inl ?_)
  simp only [shadowStmt]
  rcases hslot with hs | hs
  · refine List.mem_append.mpr (Or.inl (List.mem_append.mpr (Or.inl
      (List.mem_append.mpr (Or.inl (List.mem_append.mpr (Or.inl
        (List.mem_append.mpr (Or.inl ?_)))))))))
    subst hs
    simp only [shadowRangeVar]
    exact List.mem_map.mpr ⟨nm, List.mem_filter.mpr ⟨htr, by simp⟩, rfl⟩
  · refine List.mem_append.mpr (Or.inl (List.mem_append.mpr (Or.inl
      (List.mem_append.mpr (Or.inl (List.mem_append.mpr (Or.inl
        (List.mem_append.mpr (Or.inr ?_)))))))))
    subst hs
    simp only [shadowRangeVar]
    exact List.mem_map.mpr ⟨nm, List.mem_filter.mpr ⟨htr, by simp⟩, rfl⟩

/-- C10 witness: `func() (v int)` with `for v = range xs {}` (tracked name in
the KEY slot, plain `=`) receives a range-shadowing diagnostic for `v` at
position 6, and `func() (v int)` with `for i, v = range xs {}` (tracked name
in the VALUE slot, plain `=`) receives one at position 7. -/
theorem claim_C10_witness :
    (⟨6, .shadowedByRange "v"⟩ : Diag) ∈ runFunc false ⟨1, some [⟨[⟨"v", 1, 2⟩], .int⟩],
      some ([] ++ (.rangeStmt (some (.ident ⟨"v", 1, 6⟩)) none
        .assign (.lit "xs") []) :: [.ret [.ident ⟨"v", 1, 9⟩]])⟩ ∧
    (⟨7, .shadowedByRange "v"⟩ : Diag) ∈ runFunc false ⟨1, some [⟨[⟨"v", 1, 2⟩], .int⟩],
      some ([] ++ (.rangeStmt (some (.ident ⟨"i", 5, 6⟩)) (some (.ident ⟨"v", 1, 7⟩))
        .assign (.lit "xs") []) :: [.ret [.ident ⟨"v", 1, 9⟩]])⟩ :=
  ⟨claim_C10_range_plain_assign false _ _ _ [] [.ret [.ident ⟨"v", 1, 9⟩]] []
      (some (.ident ⟨"v", 1, 6⟩)) none (.lit "xs") "v" 1 6 rfl rfl rfl (Or.inl rfl)
      (by simp [classifyParams_snd, classifyNames_snd, exemptErrName]),
   claim_C10_range_plain_assign false _ _ _ [] [.ret [.ident ⟨"v", 1, 9⟩]] []
      (some (.ident ⟨"i", 5, 6⟩)) (some (.ident ⟨"v", 1, 7⟩)) (.lit "xs") "v" 1 7
      rfl rfl rfl (Or.inr rfl)
      (by simp [classifyParams_snd, classifyNames_snd, exemptErrName])⟩

/-- C7 counterexample: a function where every result is named and every
explicit return lists exactly the named results (`return x`) still produces
a diagnostic, because its body also shadows `x` with a short-form
declaration — the claim's "zero diagnostics" does not hold for all such
functions. -/
theorem claim_C7_counterexample :
    runFunc false ⟨1, some [⟨[⟨"x", 1, 2⟩], .int⟩],
      some [.assign .define [.ident ⟨"x", 3, 7⟩] [.lit "1"],
        .ret [.ident ⟨"x", 1, 9⟩]]⟩ =
      [⟨7, .shadowedByLocal "x"⟩] := by
  simp [runFunc, classifyParams, classifyNames, exemptErrName, checkNamedReturnUsage,
    usageStmts, usageStmt, usageExprs, usageExpr, retDiags, usesName,
    checkNamedReturnShadowing, shadowStmts, shadowStmt, shadowExprs, shadowExpr,
    shadowLhs]

/-- C7 (amended): for a function where every declared result is named (none
unnamed, none the placeholder), every explicit return statement's expressions
include every tracked name (order irrelevant — only presence is required),
AND the body contains no construct matched by the shadow detector, the
engine emits zero diagnostics. -/
theorem claim_C7_all_named_zero_diags (flag : Bool) (f : FuncUnit) (ps : List Param)
    (body : List Stmt) (h1 : f.results = some ps) (h2 : f.body = some body)
    (hnamed : ∀ p ∈ ps, p.names ≠ [])
    (hplace : ∀ p ∈ ps, ∀ n ∈ p.names, n.name ≠ "_")
    (huse : ∀ rs ∈ allReturnsStmts body, rs ≠ [] →
      ∀ nm ∈ (classifyParams flag f.pos body ps).2, usesName rs nm = true)
    (hshadow : checkNamedReturnShadowing (classifyParams flag f.pos body ps).2
      body = []) :
    runFunc flag f = [] := by
  rw [runFunc_eq flag f ps body h1 h2, hshadow]
  have hc1 : (classifyParams flag f.pos body ps).1 = [] := by
    rw [classifyParams_fst]
    refine flatMap_nil_of _ ps ?_
    intro p hp
    have h1' : ¬ p.names.isEmpty := by simp [hnamed p hp]
    rw [if_neg h1']
    have hf : p.names.filter (fun n => n.name == "_") = [] := by
      rw [List.filter_eq_nil_iff]
      intro n hn
      simp [hplace p hp n hn]
    rw [hf]
    rfl
  have husage : checkNamedReturnUsage f.pos (classifyParams flag f.pos body ps).2
      body = [] := by
    rw [checkNamedReturnUsage, usageStmts_spec]
    refine flatMap_nil_of _ _ ?_
    intro rs hrs
    rw [retDiags]
    by_cases he : rs.isEmpty
    · simp [he]
    · rw [if_neg he]
      have hne : rs ≠ [] := by simpa using he
      have hf : (classifyParams flag f.pos body ps).2.filter
          (fun nm => !usesName rs nm) = [] := by
        rw [List.filter_eq_nil_iff]
        intro nm hnm
        simp [huse rs hrs hne nm hnm]
      rw [hf]
      rfl
  rw [hc1, husage]
  rfl

/-- C7 witness: `func() (a int, b int)` returning `b, a` on one path and
`a, b` on the other produces zero diagnostics. -/
theorem claim_C7_witness : runFunc false allNamedFunc = [] := by
  refine claim_C7_all_named_zero_diags false allNamedFunc allNamedParams allNamedBody
    rfl rfl (by decide) (by decide) ?_ ?_
  · intro rs hrs hne nm hnm
    simp only [allNamedBody, allReturnsStmts, allReturnsStmt, allReturnsOptStmt,
      allReturnsExpr, allReturnsExprs, allReturnsOptExpr, List.append_nil,
      List.nil_append, List.mem_append, List.mem_cons, List.not_mem_nil,
      or_false] at hrs
    simp only [allNamedParams, allNamedBody, classifyParams_snd, classifyNames_snd,
      exemptErrName] at hnm
    simp at hnm
    rcases hrs with rfl | rfl <;> rcases hnm with rfl | rfl <;> decide
  · simp [allNamedParams, allNamedBody, classifyParams_snd, classifyNames_snd,
      exemptErrName, checkNamedReturnShadowing, shadowStmts, shadowStmt,
      shadowOptStmt, shadowExpr, shadowExprs]

/-- C2 counterexample: in `nestedDeferFunc` the only defer statement sits
inside an if-block, hence is NOT a direct child of the function body; the
spec-worded direct-child search fails, yet the variable IS exempted (the
tracked set is empty and the run reports nothing, although no return names
`err`) — so exemption is not equivalent to the existence of a direct-child
deferred assignment. -/
theorem claim_C2_counterexample :
    (classifyParams false 1 nestedDeferBody [⟨[⟨"err", 7, 3⟩], .stdError⟩]).2 = [] ∧
    runFunc false nestedDeferFunc = [] ∧
    specDirectChildDeferAssign nestedDeferBody 7 = false := by
  refine ⟨?_, ?_, ?_⟩
  · simp [nestedDeferBody, classifyParams, classifyNames, exemptErrName,
      findDeferWithVariableAssignment, fdStmts, fdStmt, fdOptStmt, fdOptExpr, fdExpr,
      fdExprs, findVariableAssignment, fvaStmts, fvaStmt, fvaExprs, fvaExpr]
  · simp [runFunc, nestedDeferFunc, nestedDeferBody, classifyParams, classifyNames,
      exemptErrName, findDeferWithVariableAssignment, fdStmts, fdStmt, fdOptStmt,
      fdOptExpr, fdExpr, fdExprs, findVariableAssignment, fvaStmts, fvaStmt, fvaExprs,
      fvaExpr]
  · simp [specDirectChildDeferAssign, nestedDeferBody]

/-- C2 (amended): with the flag off, a named non-placeholder result whose
type is identical to the standard error type is exempted (dropped from the
tracked set) if and only if some deferred-closure scheduling statement
ANYWHERE in the function body — at any nesting depth, not only among the
body's direct children — schedules a function literal whose body contains an
assignment whose left-hand target resolves, by the type resolver's object
identity, to that variable's binding; an exempted variable produces zero
diagnostics naming it, even when no return statement names it. -/
theorem claim_C2_defer_exemption_any_depth
    (f : FuncUnit) (ps : List Param) (body : List Stmt) (p : Param) (n : Ident)
    (h1 : f.results = some ps) (h2 : f.body = some body)
    (hp : p ∈ ps) (hn : n ∈ p.names) (hnu : n.name ≠ "_") (hty : p.ty = .stdError)
    (huniq : ∀ p' ∈ ps, ∀ n' ∈ p'.names, n'.name = n.name → p' = p ∧ n' = n) :
    (n.name ∈ (classifyParams false f.pos body ps).2 ↔
      ¬ ∃ fn ∈ defersStmts body, ∃ rps fb, fn = Expr.funcLit rps fb ∧
        ∃ i ∈ assignTargetsStmts fb, i.oid = n.oid) ∧
    ((∃ fn ∈ defersStmts body, ∃ rps fb, fn = Expr.funcLit rps fb ∧
        ∃ i ∈ assignTargetsStmts fb, i.oid = n.oid) →
      (runFunc false f).all (fun d => !(d.msg.mentions n.name)) = true) := by
  have hiff : n.name ∈ (classifyParams false f.pos body ps).2 ↔
      ¬ findDeferWithVariableAssignment body n.oid = true := by
    rw [mem_tracked_iff]
    constructor
    · rintro ⟨p', hp', n', hn', hname, hnu', hex⟩ hfd
      obtain ⟨hpe, hne⟩ := huniq p' hp' n' hn' hname
      subst hpe
      subst hne
      rw [exemptErrName, hty] at hex
      simp [hfd] at hex
    · intro hnfd
      have hfd0 : findDeferWithVariableAssignment body n.oid = false := by
        revert hnfd
        cases findDeferWithVariableAssignment body n.oid <;> simp
      exact ⟨p, hp, n, hn, rfl, hnu, by rw [exemptErrName, hty]; simp [hfd0]⟩
  have hnotc := not_congr (findDefer_iff body n.oid)
  refine ⟨hiff.trans hnotc, ?_⟩
  intro hex
  have hfd : findDeferWithVariableAssignment body n.oid = true :=
    (findDefer_iff body n.oid).mpr hex
  have hnmem : n.name ∉ (classifyParams false f.pos body ps).2 := by
    intro hmem
    exact (hiff.mp hmem) hfd
  rw [List.all_eq_true]
  intro d hd
  rw [runFunc_eq false f ps body h1 h2] at hd
  rcases List.mem_append.mp hd with hd | hd
  rotate_left
  · obtain ⟨nm, hnm, hmsg⟩ := shadowStmts_mem _ body d hd
    have hne : nm ≠ n.name := fun he => hnmem (he ▸ hnm)
    rcases hmsg with h | h | h <;> simp [Msg.mentions, h, hne]
  rcases List.mem_append.mp hd with hd | hd
  · obtain ⟨hpos, ty, hmsg⟩ := classifyParams_fst_mem false f.pos body ps d hd
    rcases hmsg with h | h <;> simp [Msg.mentions, h]
  · obtain ⟨nm, hnm, rfl⟩ := usage_mem _ _ _ d hd
    have hne : nm ≠ n.name := fun he => hnmem (he ▸ hnm)
    simp [Msg.mentions, hne]

/-- C2 witness: in `nestedDeferFunc` the deferred assignment exists at
nesting depth 2, and indeed no diagnostic of the run names `err`. -/
theorem claim_C2_witness :
    (runFunc false nestedDeferFunc).all (fun d => !(d.msg.mentions "err")) = true := by
  have hex : ∃ fn ∈ defersStmts nestedDeferBody, ∃ rps fb, fn = Expr.funcLit rps fb ∧
      ∃ i ∈ assignTargetsStmts fb, i.oid = (⟨"err", 7, 3⟩ : Ident).oid := by
    refine ⟨Expr.funcLit none [.assign .assign [.ident ⟨"err", 7, 5⟩] [.lit "nil"]], ?_,
      none, _, rfl, ⟨"err", 7, 5⟩, ?_, rfl⟩
    · simp [nestedDeferBody, defersStmts, defersStmt, defersOptStmt, defersOptExpr,
        defersExpr, defersExprs]
    · simp [assignTargetsStmts, assignTargetsStmt, assignTargetsExprs,
        assignTargetsExpr, lhsIdents]
  exact (claim_C2_defer_exemption_any_depth nestedDeferFunc
    [⟨[⟨"err", 7, 3⟩], .stdError⟩] nestedDeferBody
    ⟨[⟨"err", 7, 3⟩], .stdError⟩ ⟨"err", 7, 3⟩ rfl rfl (by decide) (by decide)
    (by decide) rfl (by decide)).2 hex

end NamedReturns
